import Mathlib

set_option maxRecDepth 8000

/-!
Verification of the response-extraction and validation logic of
`image_to_json.py` (table-image → JSON extraction client).

The development shallowly embeds the Python code of the repository:

* strings become `List Char`; Python's `str.find`, slicing (including
  negative end indices), `in` and `str.strip()` are modelled explicitly
  (`pyFindFrom`, `pySlice`, `containsSub`, `pyStrip`);
* `json.loads` is modelled by an executable recursive-descent JSON parser
  (`parseJson`) over a `Json` value type; the fuel argument models Python's
  recursion limit and is chosen large enough (`2·|input| + 4`) that it never
  runs out on inputs whose nesting the parser can even reach, since every
  recursion level consumes at least one input character per two fuel ticks;
* `json.dump(..., indent=2, ensure_ascii=False)` is modelled by the
  executable renderer `renderV` / `render`;
* the fence-scanning heuristic of `analyze_table_image` (lines 129-141 of
  the source) becomes `extractPayload`, and the JSONDecodeError handler
  (lines 144-149) becomes `analyzeResponse`;
* the control flow of `main` (existence check, error-key check, save)
  becomes `mainRun`.

`Json` is a mutual inductive family (`Json` / `JsonList` / `JsonMembers`)
rather than one nested inductive, so that all functions over it are plain
mutual structural recursions that the kernel evaluates definitionally.

Whitespace sets: Python `str.strip()` strips Unicode whitespace; the model
uses the ASCII whitespace characters, which cover every input the claims
touch.  JSON token whitespace is exactly space/tab/CR/LF as in Python's
`json` module.
-/

namespace TableExtract

/-- Characters stripped by Python `str.strip()` (ASCII part). -/
def pyWs (c : Char) : Bool :=
  c = ' ' || c = '\t' || c = '\n' || c = '\r' || c = '\x0b' || c = '\x0c'

/-- Model of Python `str.strip()`: drop leading and trailing whitespace. -/
def pyStrip (s : List Char) : List Char :=
  ((s.dropWhile pyWs).reverse.dropWhile pyWs).reverse

/-- `leadsWith p s` is true when `p` occurs at the very start of `s`
(Boolean prefix test, self-contained). -/
def leadsWith : List Char → List Char → Bool
  | [], _ => true
  | _ :: _, [] => false
  | p :: ps, c :: cs => p = c && leadsWith ps cs

/-- First index at which `pat` occurs in `s` (leftmost occurrence),
`none` if there is none.  Models the search done by Python `str.find`. -/
def findSub (pat : List Char) : List Char → Option Nat
  | [] => if leadsWith pat [] then some 0 else none
  | c :: t => if leadsWith pat (c :: t) then some 0 else (findSub pat t).map (· + 1)

/-- Model of Python `pat in s` (substring containment). -/
def containsSub (pat s : List Char) : Bool :=
  (findSub pat s).isSome

/-- Model of Python `s.find(pat, start)`: index of the leftmost occurrence
of `pat` at or after `start`, and `-1` if there is none. -/
def pyFindFrom (s pat : List Char) (start : Nat) : Int :=
  match findSub pat (s.drop start) with
  | some j => Int.ofNat (start + j)
  | none => -1

/-- Model of the Python slice `s[a:b]` for a non-negative start `a` and an
`Int` end `b`: a negative `b` counts from the end of the string
(`n + b`, clamped at `0`), a non-negative `b` is clamped at `n`. -/
def pySlice (s : List Char) (a : Nat) (b : Int) : List Char :=
  let n := s.length
  let b2 : Nat := if b < 0 then n - (-b).toNat else min b.toNat n
  (s.take b2).drop a

/-- The generic triple-backtick fence. -/
def fence3 : List Char := "```".data

/-- The JSON-tagged opening fence. -/
def fenceJson : List Char := "```json".data

/--
The payload-selection heuristic of `analyze_table_image`
(`image_to_json.py` lines 129-138):

```
if "```json" in content:
    json_start = content.find("```json") + 7
    json_end = content.find("```", json_start)
    json_content = content[json_start:json_end].strip()
elif "```" in content:
    json_start = content.find("```") + 3
    json_end = content.find("```", json_start)
    json_content = content[json_start:json_end].strip()
else:
    json_content = content.strip()
```

When the branch is taken the `find` has succeeded, so `.toNat` on the
start index is exact; `jsonEnd` stays an `Int` because a failed `find`
yields `-1`, which Python slicing then treats as "end minus one".
-/
def extractPayload (content : List Char) : List Char :=
  if containsSub fenceJson content then
    let jsonStart : Nat := (pyFindFrom content fenceJson 0).toNat + 7
    let jsonEnd : Int := pyFindFrom content fence3 jsonStart
    pyStrip (pySlice content jsonStart jsonEnd)
  else if containsSub fence3 content then
    let jsonStart : Nat := (pyFindFrom content fence3 0).toNat + 3
    let jsonEnd : Int := pyFindFrom content fence3 jsonStart
    pyStrip (pySlice content jsonStart jsonEnd)
  else
    pyStrip content

mutual
/-- JSON values, as produced by `json.loads`.  Numbers keep their source
lexeme (the claims never compute with numeric values); objects keep their
members in textual order (Python's dict preserves insertion order). -/
inductive Json where
  | str (s : List Char)
  | num (lit : List Char)
  | bool (b : Bool)
  | null
  | arr (elems : JsonList)
  | obj (members : JsonMembers)
deriving DecidableEq

/-- A list of JSON values (array elements). -/
inductive JsonList where
  | nil
  | cons (hd : Json) (tl : JsonList)
deriving DecidableEq

/-- An ordered list of object members. -/
inductive JsonMembers where
  | nil
  | cons (key : List Char) (val : Json) (tl : JsonMembers)
deriving DecidableEq
end

/-- Build a `JsonList` from a Lean list. -/
def jlist : List Json → JsonList
  | [] => .nil
  | v :: vs => .cons v (jlist vs)

/-- Build `JsonMembers` from a Lean association list. -/
def jmems : List (List Char × Json) → JsonMembers
  | [] => .nil
  | (k, v) :: kvs => .cons k v (jmems kvs)

/-- JSON inter-token whitespace (exactly the set Python's `json` skips). -/
def jsonWsChar (c : Char) : Bool :=
  c = ' ' || c = '\t' || c = '\n' || c = '\r'

/-- Skip JSON whitespace. -/
def skipWs (s : List Char) : List Char := s.dropWhile jsonWsChar

/-- Hexadecimal digit test. -/
def isHexChar (c : Char) : Bool :=
  ('0' ≤ c && c ≤ '9') || ('a' ≤ c && c ≤ 'f') || ('A' ≤ c && c ≤ 'F')

/-- Value of a hexadecimal digit. -/
def hexVal (c : Char) : Nat :=
  if '0' ≤ c && c ≤ '9' then c.toNat - '0'.toNat
  else if 'a' ≤ c && c ≤ 'f' then c.toNat - 'a'.toNat + 10
  else if 'A' ≤ c && c ≤ 'F' then c.toNat - 'A'.toNat + 10
  else 0

/-- Prepend a decoded character to the result of a string-body parse. -/
def psCons (c : Char) (r : Except String (List Char × List Char)) :
    Except String (List Char × List Char) :=
  r.map (fun p => (c :: p.1, p.2))

/-- Parse the body of a JSON string after the opening quote, decoding
escapes, up to and including the closing quote.  Returns the decoded
characters and the remaining input.  Unescaped control characters are
rejected, as in Python's strict (default) mode.  The fuel argument (one
tick per decoded character) exists only to make the recursion structural:
each tick consumes at least one input character, so the wrapper's
`length + 1` fuel can never run out. -/
def parseStringBodyF : Nat → List Char → Except String (List Char × List Char)
  | 0, _ => .error "Unterminated string"
  | Nat.succ f, s =>
    match s with
    | [] => .error "Unterminated string"
    | c :: t =>
      if c = '"' then .ok ([], t)
      else if c = '\\' then
        match t with
        | [] => .error "Unterminated string"
        | e :: t2 =>
          if e = '"' then psCons '"' (parseStringBodyF f t2)
          else if e = '\\' then psCons '\\' (parseStringBodyF f t2)
          else if e = '/' then psCons '/' (parseStringBodyF f t2)
          else if e = 'b' then psCons '\x08' (parseStringBodyF f t2)
          else if e = 'f' then psCons '\x0c' (parseStringBodyF f t2)
          else if e = 'n' then psCons '\n' (parseStringBodyF f t2)
          else if e = 'r' then psCons '\r' (parseStringBodyF f t2)
          else if e = 't' then psCons '\t' (parseStringBodyF f t2)
          else if e = 'u' then
            match t2 with
            | h1 :: h2 :: h3 :: h4 :: t3 =>
              if isHexChar h1 && isHexChar h2 && isHexChar h3 && isHexChar h4 then
                psCons (Char.ofNat
                    (hexVal h1 * 4096 + hexVal h2 * 256 + hexVal h3 * 16 + hexVal h4))
                  (parseStringBodyF f t3)
              else .error "Invalid unicode escape"
            | _ => .error "Invalid unicode escape"
          else .error "Invalid escape"
      else if c.toNat < 32 then .error "Invalid control character"
      else psCons c (parseStringBodyF f t)

/-- String-body parsing with always-sufficient fuel. -/
def parseStringBody (s : List Char) : Except String (List Char × List Char) :=
  parseStringBodyF (s.length + 1) s

/-- Parse a JSON number lexeme (`-?(0|[1-9][0-9]*)(\.[0-9]+)?([eE][+-]?[0-9]+)?`),
keeping its text.  Mirrors the regular expression of Python's `json` scanner:
the match is greedy and stops at the first character that cannot extend it. -/
def parseNumber (s : List Char) : Except String (Json × List Char) :=
  let (sign, s1) :=
    match s with
    | c :: t => if c = '-' then (['-'], t) else (([] : List Char), s)
    | [] => ([], s)
  match s1 with
  | [] => .error "Expecting value"
  | c :: t =>
    if ¬ c.isDigit then .error "Expecting value"
    else
      let (ipart, s2) :=
        if c = '0' then (['0'], t)
        else (c :: t.takeWhile Char.isDigit, t.dropWhile Char.isDigit)
      let (fpart, s3) :=
        match s2 with
        | '.' :: u =>
          if (u.takeWhile Char.isDigit).isEmpty then (([] : List Char), s2)
          else ('.' :: u.takeWhile Char.isDigit, u.dropWhile Char.isDigit)
        | _ => ([], s2)
      let (epart, s4) :=
        match s3 with
        | e :: u =>
          if e = 'e' || e = 'E' then
            match u with
            | g :: u2 =>
              if g = '+' || g = '-' then
                if (u2.takeWhile Char.isDigit).isEmpty then (([] : List Char), s3)
                else (e :: g :: u2.takeWhile Char.isDigit, u2.dropWhile Char.isDigit)
              else if g.isDigit then
                (e :: u.takeWhile Char.isDigit, u.dropWhile Char.isDigit)
              else ([], s3)
            | [] => ([], s3)
          else ([], s3)
        | [] => ([], s3)
      .ok (.num (sign ++ ipart ++ fpart ++ epart), s4)

/-- Parsing modes of the single-function recursive-descent parser:
a single value, the element list of an array (positioned at a value),
or the member list of an object (positioned at a key). -/
inductive PMode where
  | val
  | elems
  | membs

/-- Results of the three parsing modes. -/
inductive POut where
  | one (v : Json)
  | many (vs : JsonList)
  | assoc (kvs : JsonMembers)

/-- The recursive-descent parser behind the `json.loads` model, structurally
recursive on its fuel.  `PMode.val` parses one value; `PMode.elems` parses
`v (, v)* ]` inside an array; `PMode.membs` parses `"k": v (, "k": v)* }`
inside an object.  Error messages are abstract; only success/failure and the
parsed value matter to the claims. -/
def parseP : Nat → PMode → List Char → Except String (POut × List Char)
  | 0, _, _ => .error "Recursion limit exceeded"
  | Nat.succ f, PMode.val, s =>
    match s with
    | [] => .error "Expecting value"
    | c :: t =>
      if c = '"' then
        (parseStringBody t).map (fun p => (POut.one (Json.str p.1), p.2))
      else if c = '\x7b' then
        match skipWs t with
        | [] => .error "Expecting property name"
        | c2 :: r2 =>
          if c2 = '\x7d' then .ok (POut.one (Json.obj .nil), r2)
          else
            match parseP f PMode.membs (c2 :: r2) with
            | .ok (POut.assoc kvs, r) => .ok (POut.one (Json.obj kvs), r)
            | .ok _ => .error "Malformed object"
            | .error e => .error e
      else if c = '[' then
        match skipWs t with
        | [] => .error "Expecting value"
        | c2 :: r2 =>
          if c2 = ']' then .ok (POut.one (Json.arr .nil), r2)
          else
            match parseP f PMode.elems (c2 :: r2) with
            | .ok (POut.many vs, r) => .ok (POut.one (Json.arr vs), r)
            | .ok _ => .error "Malformed array"
            | .error e => .error e
      else if c = 't' then
        if leadsWith "rue".data t then .ok (POut.one (Json.bool true), t.drop 3)
        else .error "Expecting value"
      else if c = 'f' then
        if leadsWith "alse".data t then .ok (POut.one (Json.bool false), t.drop 4)
        else .error "Expecting value"
      else if c = 'n' then
        if leadsWith "ull".data t then .ok (POut.one Json.null, t.drop 3)
        else .error "Expecting value"
      else if c = 'N' then
        if leadsWith "aN".data t then .ok (POut.one (Json.num "NaN".data), t.drop 2)
        else .error "Expecting value"
      else if c = 'I' then
        if leadsWith "nfinity".data t then
          .ok (POut.one (Json.num "Infinity".data), t.drop 7)
        else .error "Expecting value"
      else if c = '-' then
        if leadsWith "Infinity".data t then
          .ok (POut.one (Json.num "-Infinity".data), t.drop 8)
        else (parseNumber (c :: t)).map (fun p => (POut.one p.1, p.2))
      else if c.isDigit then (parseNumber (c :: t)).map (fun p => (POut.one p.1, p.2))
      else .error "Expecting value"
  | Nat.succ f, PMode.elems, s =>
    match parseP f PMode.val s with
    | .error e => .error e
    | .ok (POut.one v, r) =>
      match skipWs r with
      | [] => .error "Expecting comma or closing bracket"
      | c :: r2 =>
        if c = ',' then
          match parseP f PMode.elems (skipWs r2) with
          | .ok (POut.many vs, r3) => .ok (POut.many (JsonList.cons v vs), r3)
          | .ok _ => .error "Malformed array"
          | .error e => .error e
        else if c = ']' then .ok (POut.many (JsonList.cons v .nil), r2)
        else .error "Expecting comma or closing bracket"
    | .ok _ => .error "Malformed array"
  | Nat.succ f, PMode.membs, s =>
    match s with
    | [] => .error "Expecting property name"
    | c :: t =>
      if c = '"' then
        match parseStringBody t with
        | .error e => .error e
        | .ok (k, r) =>
          match skipWs r with
          | [] => .error "Expecting colon"
          | c2 :: r2 =>
            if c2 = ':' then
              match parseP f PMode.val (skipWs r2) with
              | .ok (POut.one v, r3) =>
                match skipWs r3 with
                | [] => .error "Expecting comma or closing brace"
                | c3 :: r4 =>
                  if c3 = ',' then
                    match parseP f PMode.membs (skipWs r4) with
                    | .ok (POut.assoc kvs, r5) =>
                      .ok (POut.assoc (JsonMembers.cons k v kvs), r5)
                    | .ok _ => .error "Malformed object"
                    | .error e => .error e
                  else if c3 = '\x7d' then
                    .ok (POut.assoc (JsonMembers.cons k v .nil), r4)
                  else .error "Expecting comma or closing brace"
              | .ok _ => .error "Malformed object"
              | .error e => .error e
            else .error "Expecting colon"
      else .error "Expecting property name"

/-- Model of `json.loads`.  The input is stripped first (every call site in
the source passes an already-`.strip()`ed payload, so this is observationally
the same as skipping leading whitespace and requiring only trailing
whitespace, which is what Python does); the fuel `2·|t| + 4` over-approximates
the recursion depth reachable on `t` (each nesting level consumes at least
one character per two fuel ticks). -/
def parseJson (s : List Char) : Except String Json :=
  let t := pyStrip s
  match parseP (2 * t.length + 4) PMode.val t with
  | .error e => .error e
  | .ok (POut.one v, r) =>
    if (skipWs r).isEmpty then .ok v else .error "Extra data"
  | .ok _ => .error "Malformed value"

/-- Lowercase hexadecimal digit for `n < 16` (as produced by Python's
`'\u%04x' % n` formatting in the `json` encoder). -/
def hexDig (n : Nat) : Char :=
  match n with
  | 0 => '0' | 1 => '1' | 2 => '2' | 3 => '3' | 4 => '4'
  | 5 => '5' | 6 => '6' | 7 => '7' | 8 => '8' | 9 => '9'
  | 10 => 'a' | 11 => 'b' | 12 => 'c' | 13 => 'd' | 14 => 'e' | 15 => 'f'
  | _ => '0'

/-- A `\uXXXX` escape for code point `n < 0x10000`. -/
def uEsc (n : Nat) : List Char :=
  ['\\', 'u', hexDig (n / 4096 % 16), hexDig (n / 256 % 16),
   hexDig (n / 16 % 16), hexDig (n % 16)]

/-- How Python's `json` encoder writes one character of a string:
the short escapes, `\u00XX` for remaining control characters, and — only
when `ensure_ascii` is true — `\uXXXX` (or a surrogate pair) for non-ASCII
characters.  With `ensure_ascii=False` every character `≥ 0x20` other than
`"` and `\` is written literally. -/
def escapeChar (ensureAscii : Bool) (c : Char) : List Char :=
  if c = '"' then ['\\', '"']
  else if c = '\\' then ['\\', '\\']
  else if c = '\n' then ['\\', 'n']
  else if c = '\r' then ['\\', 'r']
  else if c = '\t' then ['\\', 't']
  else if c = '\x08' then ['\\', 'b']
  else if c = '\x0c' then ['\\', 'f']
  else if c.toNat < 32 then
    ['\\', 'u', '0', '0', hexDig (c.toNat / 16), hexDig (c.toNat % 16)]
  else if ensureAscii && 127 < c.toNat then
    if c.toNat < 65536 then uEsc c.toNat
    else uEsc (55296 + (c.toNat - 65536) / 1024) ++ uEsc (56320 + (c.toNat - 65536) % 1024)
  else [c]

/-- Escape a whole string (character by character). -/
def escapeString (ensureAscii : Bool) (s : List Char) : List Char :=
  s.foldr (fun c acc => escapeChar ensureAscii c ++ acc) []

/-- A rendered JSON string literal, quotes included. -/
def renderString (ensureAscii : Bool) (s : List Char) : List Char :=
  '"' :: escapeString ensureAscii s ++ ['"']

/-- `n` spaces of indentation. -/
def spaces (n : Nat) : List Char := List.replicate n ' '

mutual
/-- Model of the serialization done by `json.dump(v, f, indent=iw,
ensure_ascii=ea)` at current indentation level `lvl`.  Non-empty containers
open with a newline, render items one per line one level deeper separated
by `,`, and close on a fresh line at the parent level; empty containers
render inline, exactly as Python does. -/
def renderV (ea : Bool) (iw lvl : Nat) : Json → List Char
  | .str s => renderString ea s
  | .num l => l
  | .bool true => "true".data
  | .bool false => "false".data
  | .null => "null".data
  | .arr .nil => ['[', ']']
  | .arr (.cons e es) =>
    '[' :: '\n' :: renderElems ea iw (lvl + iw) (.cons e es) ++
      '\n' :: spaces lvl ++ [']']
  | .obj .nil => ['\x7b', '\x7d']
  | .obj (.cons k v ms) =>
    '\x7b' :: '\n' :: renderMembers ea iw (lvl + iw) (.cons k v ms) ++
      '\n' :: spaces lvl ++ ['\x7d']

/-- Render array elements, one per line at indentation `lvl`. -/
def renderElems (ea : Bool) (iw lvl : Nat) : JsonList → List Char
  | .nil => []
  | .cons e .nil => spaces lvl ++ renderV ea iw lvl e
  | .cons e (.cons e2 es) =>
    spaces lvl ++ renderV ea iw lvl e ++
      ',' :: '\n' :: renderElems ea iw lvl (.cons e2 es)

/-- Render object members, one per line at indentation `lvl`. -/
def renderMembers (ea : Bool) (iw lvl : Nat) : JsonMembers → List Char
  | .nil => []
  | .cons k v .nil => spaces lvl ++ renderString ea k ++ ':' :: ' ' :: renderV ea iw lvl v
  | .cons k v (.cons k2 v2 ms) =>
    spaces lvl ++ renderString ea k ++ ':' :: ' ' :: renderV ea iw lvl v ++
      ',' :: '\n' :: renderMembers ea iw lvl (.cons k2 v2 ms)
end

/-- Top-level render of a JSON value. -/
def render (ensureAscii : Bool) (iw : Nat) (v : Json) : List Char :=
  renderV ensureAscii iw 0 v

/-- What `save_to_json` puts on disk: the file encoding passed to `open`
and the serialized text (`image_to_json.py` lines 165-166:
`open(output_path, 'w', encoding='utf-8')`,
`json.dump(data, f, indent=2, ensure_ascii=False)`). -/
structure SavedFile where
  encoding : List Char
  text : List Char
deriving DecidableEq

/-- Model of `TableImageAnalyzer.save_to_json` (the serialization it
performs; the `output_path` and write errors are filesystem effects outside
the embedding). -/
def save_to_json (data : Json) : SavedFile :=
  { encoding := "utf-8".data, text := render false 2 data }

/-- One table cell of the §3 data model. -/
structure Cell where
  row_header : List Char
  column_header : List Char
  cell_value : List Char
  search_question : List Char

/-- The validated record of the §3 data model. -/
structure TableExtractionResult where
  row_headers : List (List Char)
  column_headers : List (List Char)
  cells : List Cell

/-- The JSON dictionary corresponding to one cell. -/
def cellToJson (c : Cell) : Json :=
  .obj (jmems
    [("row_header".data, .str c.row_header),
     ("column_header".data, .str c.column_header),
     ("cell_value".data, .str c.cell_value),
     ("search_question".data, .str c.search_question)])

/-- The JSON dictionary corresponding to a `TableExtractionResult`, in the
output format described by the prompt of `analyze_table_image`. -/
def terToJson (r : TableExtractionResult) : Json :=
  .obj (jmems
    [("table_metadata".data,
       .obj (jmems
         [("row_headers".data, .arr (jlist (r.row_headers.map .str))),
          ("column_headers".data, .arr (jlist (r.column_headers.map .str)))])),
     ("cells".data, .arr (jlist (r.cells.map cellToJson)))])

/-- The exact error message of the JSONDecodeError handler
(`image_to_json.py` line 149). -/
def parseFailureMessage : List Char := "Failed to parse JSON response".data

/-- The key `"error"`. -/
def errKey : List Char := "error".data

/-- The key `"raw_response"`. -/
def rawKey : List Char := "raw_response".data

/-- The response-processing part of `analyze_table_image`
(`image_to_json.py` lines 127-149): extract the payload, parse it, and on
a parse failure return the failure dictionary
`{"error": "Failed to parse JSON response", "raw_response": content}`
carrying the original (untrimmed) reply text. -/
def analyzeResponse (content : List Char) : Json :=
  match parseJson (extractPayload content) with
  | .ok v => v
  | .error _ =>
    .obj (jmems [(errKey, .str parseFailureMessage), (rawKey, .str content)])

/-- Does the member list contain the key `"error"`? -/
def memsHasErrKey : JsonMembers → Bool
  | .nil => false
  | .cons k _ tl => decide (k = errKey) || memsHasErrKey tl

/-- Does the element list contain the string `"error"`?  (Python `in` on a
list is element equality; only a string can equal a string.) -/
def elemsHasErrStr : JsonList → Bool
  | .nil => false
  | .cons (.str s) tl => decide (s = errKey) || elemsHasErrStr tl
  | .cons _ tl => elemsHasErrStr tl

/-- Python `"error" in results` for a parsed JSON value: key membership on
a dict, element equality on a list, substring test on a string, and a
`TypeError` (modelled as `none`) on the remaining types. -/
def pyInError (v : Json) : Option Bool :=
  match v with
  | .obj kvs => some (memsHasErrKey kvs)
  | .arr xs => some (elemsHasErrStr xs)
  | .str s => some (containsSub errKey s)
  | _ => none

/-- Observable outcome of one run of `main`. -/
structure MainOutcome where
  requested : Bool
  wroteOutput : Bool
  printedFailure : Bool
deriving DecidableEq

/-- Control flow of `main` (`image_to_json.py` lines 200-246): if the image
path does not exist, report and return before any request; otherwise issue
the request (whose reply text is the parameter `response`), check
`"error" in results`, and either report the failure and return without
writing, or write the output file.  A `TypeError` from the `in` test on a
non-container result is caught by the outer handler: a diagnostic, no file.
`printedFailure` records a failure diagnostic printed before/instead of
saving (the success path prints a summary, not a failure). -/
def mainRun (imageExists : Bool) (response : List Char) : MainOutcome :=
  if imageExists then
    let results := analyzeResponse response
    match pyInError results with
    | some true => { requested := true, wroteOutput := false, printedFailure := true }
    | some false => { requested := true, wroteOutput := true, printedFailure := false }
    | none => { requested := true, wroteOutput := false, printedFailure := true }
  else
    { requested := false, wroteOutput := false, printedFailure := true }

/-! ### Shape checkers

The source performs no shape validation, so the checkers below are not
translations of source code; they exist to state the claims that talk about
"table-shaped" values and missing fields. -/

/-- Lookup of a key in an object's member list (first occurrence; the
concrete objects the claims inspect have no duplicate keys). -/
def memsLookup : JsonMembers → List Char → Option Json
  | .nil, _ => none
  | .cons k v tl, key => if k = key then some v else memsLookup tl key

/-- Every element of a JSON array satisfies `p`. -/
def jlAll (p : Json → Bool) : JsonList → Bool
  | .nil => true
  | .cons v tl => p v && jlAll p tl

/-- Some element of a JSON array satisfies `p`. -/
def jlAny (p : Json → Bool) : JsonList → Bool
  | .nil => false
  | .cons v tl => p v || jlAny p tl

/-- Does the member list bind `key`? -/
def memsHasKey (key : List Char) : JsonMembers → Bool
  | .nil => false
  | .cons k _ tl => decide (k = key) || memsHasKey key tl

/-- Is the value a JSON string? -/
def isStr : Json → Bool
  | .str _ => true
  | _ => false

/-- Is the value an array of strings? -/
def isStrArr : Json → Bool
  | .arr es => jlAll isStr es
  | _ => false

/-- Modelled from the spec (§3): does `key` name a string field of the
object `kvs`? -/
def hasStrField (kvs : JsonMembers) (key : List Char) : Bool :=
  match memsLookup kvs key with
  | some (.str _) => true
  | _ => false

/-- Modelled from the spec (§3): a cell object carrying the four required
string fields. -/
def isCellObj (v : Json) : Bool :=
  match v with
  | .obj kvs =>
    hasStrField kvs "row_header".data && hasStrField kvs "column_header".data &&
    hasStrField kvs "cell_value".data && hasStrField kvs "search_question".data
  | _ => false

/-- Modelled from the spec (§4.2 step 4): the shape validation described
there — a `table_metadata` object with `row_headers` and `column_headers`
sequences of strings, plus a `cells` sequence whose every element is a cell
object.  The source has no counterpart of this check; the definition exists
to state the claims about "valid table-shaped" values. -/
def isTableShaped (v : Json) : Bool :=
  match v with
  | .obj kvs =>
    (match memsLookup kvs "table_metadata".data with
     | some (.obj m) =>
       (match memsLookup m "row_headers".data with
        | some a => isStrArr a
        | none => false) &&
       (match memsLookup m "column_headers".data with
        | some a => isStrArr a
        | none => false)
     | _ => false) &&
    (match memsLookup kvs "cells".data with
     | some (.arr cs) => jlAll isCellObj cs
     | _ => false)
  | _ => false

/-- Modelled from the spec (concrete scenario 3): some `cells` entry lacks
the `search_question` field. -/
def someCellLacksSearchQuestion (v : Json) : Bool :=
  match v with
  | .obj kvs =>
    match memsLookup kvs "cells".data with
    | some (.arr cs) =>
      jlAny (fun c => match c with
        | .obj ckvs => !memsHasKey "search_question".data ckvs
        | _ => true) cs
    | _ => false
  | _ => false

/-! ### Claim C1 — shape validation of parsed replies -/

/-- A model reply whose JSON parses but whose single `cells` entry lacks
`search_question`. -/
def missingFieldReply : List Char :=
  ("```json\n\x7b\"table_metadata\": \x7b\"row_headers\": [\"R1\"], " ++
   "\"column_headers\": [\"C1\"]\x7d, \"cells\": [\x7b\"row_header\": \"R1\", " ++
   "\"column_header\": \"C1\", \"cell_value\": \"5\"\x7d]\x7d\n```").data

/-- The value `json.loads` produces for `missingFieldReply`'s payload. -/
def missingFieldVal : Json :=
  .obj (jmems
    [("table_metadata".data, .obj (jmems
        [("row_headers".data, .arr (jlist [.str "R1".data])),
         ("column_headers".data, .arr (jlist [.str "C1".data]))])),
     ("cells".data, .arr (jlist
        [.obj (jmems
           [("row_header".data, .str "R1".data),
            ("column_header".data, .str "C1".data),
            ("cell_value".data, .str "5".data)])]))])

/-- Claim C1 counterexample: a reply whose payload parses and whose cells
entry misses `search_question` is NOT turned into a failure — the parsed
value itself is returned, and `main` even treats it as a success
(`pyInError … = some false`), contradicting the claimed validation. -/
theorem missing_search_question_not_rejected :
    parseJson (extractPayload missingFieldReply) = .ok missingFieldVal ∧
    someCellLacksSearchQuestion missingFieldVal = true ∧
    analyzeResponse missingFieldReply = missingFieldVal ∧
    pyInError missingFieldVal = some false :=
  ⟨rfl, rfl, rfl, rfl⟩

/-- Claim C1 (amended): `analyze_table_image` performs no shape validation
at all — whenever the extracted payload parses as JSON, the parsed value is
returned as the result unchanged, whatever its shape. -/
theorem parsed_value_returned_unvalidated (content : List Char) (v : Json)
    (h : parseJson (extractPayload content) = .ok v) :
    analyzeResponse content = v := by
  unfold analyzeResponse
  rw [h]

/-- Witness for `parsed_value_returned_unvalidated` at `missingFieldReply`. -/
theorem parsed_value_returned_unvalidated_witness :
    analyzeResponse missingFieldReply = missingFieldVal :=
  parsed_value_returned_unvalidated missingFieldReply missingFieldVal rfl

/-! ### Claim C3 — parse-failure result -/

/-- Claim C3: whenever the extracted payload fails to parse as JSON, the
operation returns the failure dictionary whose `error` is exactly
"Failed to parse JSON response" and whose `raw_response` is the original,
untrimmed reply text (not the extracted payload). -/
theorem parse_failure_result (content : List Char) (e : String)
    (h : parseJson (extractPayload content) = .error e) :
    analyzeResponse content
      = .obj (jmems [(errKey, .str parseFailureMessage), (rawKey, .str content)]) := by
  unfold analyzeResponse
  rw [h]

/-- Witness for `parse_failure_result` at the spec's concrete scenario 2
(`"not json at all"`). -/
theorem parse_failure_result_witness :
    analyzeResponse "not json at all".data
      = .obj (jmems [(errKey, .str parseFailureMessage),
                     (rawKey, .str "not json at all".data)]) :=
  parse_failure_result "not json at all".data "Expecting value" rfl

/-! ### Claim C6 — consecutive fences -/

/-- Claim C6: a reply that is two consecutive fences with no content
between them makes the code try to parse the empty string, which is a
parse failure (the failure dictionary), not a crash — for both the
generic-fence and JSON-tagged-fence forms. -/
theorem empty_between_fences_fails :
    extractPayload (fence3 ++ fence3) = [] ∧
    extractPayload (fenceJson ++ fence3) = [] ∧
    analyzeResponse (fence3 ++ fence3)
      = .obj (jmems [(errKey, .str parseFailureMessage),
                     (rawKey, .str (fence3 ++ fence3))]) ∧
    analyzeResponse (fenceJson ++ fence3)
      = .obj (jmems [(errKey, .str parseFailureMessage),
                     (rawKey, .str (fenceJson ++ fence3))]) :=
  ⟨rfl, rfl, rfl, rfl⟩

/-! ### Claim C7 — missing image file -/

/-- Claim C7: when the configured image path does not exist, `main` prints
a diagnostic and returns before any inference request, and no output file
is written. -/
theorem missing_image_aborts (response : List Char) :
    mainRun false response
      = { requested := false, wroteOutput := false, printedFailure := true } := rfl

/-! ### Substring-search lemmas -/

theorem leadsWith_length : ∀ (p s : List Char), leadsWith p s = true → p.length ≤ s.length := by
  intro p
  induction p with
  | nil => intro s _; simp
  | cons a ps ih =>
    intro s h
    cases s with
    | nil => simp [leadsWith] at h
    | cons c cs =>
      simp only [leadsWith, Bool.and_eq_true, decide_eq_true_eq] at h
      have := ih cs h.2
      simp only [List.length_cons]
      omega

theorem findSub_bound : ∀ (s pat : List Char) (i : Nat),
    findSub pat s = some i → i + pat.length ≤ s.length := by
  intro s
  induction s with
  | nil =>
    intro pat i h
    by_cases hl : leadsWith pat [] = true
    · rw [findSub, if_pos hl] at h
      obtain rfl : (0 : Nat) = i := by injection h
      have := leadsWith_length pat [] hl
      simpa using this
    · rw [findSub, if_neg hl] at h
      exact absurd h (by simp)
  | cons c t ih =>
    intro pat i h
    by_cases hl : leadsWith pat (c :: t) = true
    · rw [findSub, if_pos hl] at h
      obtain rfl : (0 : Nat) = i := by injection h
      have := leadsWith_length pat (c :: t) hl
      simpa using this
    · rw [findSub, if_neg hl] at h
      rw [Option.map_eq_some'] at h
      obtain ⟨j, hj, rfl⟩ := h
      have := ih pat j hj
      simp only [List.length_cons]
      omega

theorem containsSub_of_findSub_some {pat s : List Char} {i : Nat}
    (h : findSub pat s = some i) : containsSub pat s = true := by
  unfold containsSub
  rw [h]
  rfl

theorem containsSub_false_of_findSub_none {pat s : List Char}
    (h : findSub pat s = none) : containsSub pat s = false := by
  unfold containsSub
  rw [h]
  rfl

theorem containsSub_cons (pat : List Char) (c : Char) (t : List Char) :
    containsSub pat (c :: t) = (leadsWith pat (c :: t) || containsSub pat t) := by
  unfold containsSub
  rw [findSub]
  by_cases h : leadsWith pat (c :: t) = true
  · simp [h]
  · simp [h]

theorem leadsWith_trans : ∀ (a b c : List Char),
    leadsWith a b = true → leadsWith b c = true → leadsWith a c = true := by
  intro a
  induction a with
  | nil => intro b c _ _; rfl
  | cons x xs ih =>
    intro b c hab hbc
    cases b with
    | nil => simp [leadsWith] at hab
    | cons y ys =>
      cases c with
      | nil => simp [leadsWith] at hbc
      | cons z zs =>
        simp only [leadsWith, Bool.and_eq_true, decide_eq_true_eq] at hab hbc ⊢
        exact ⟨hab.1.trans hbc.1, ih ys zs hab.2 hbc.2⟩

theorem containsSub_mono : ∀ (s p q : List Char), leadsWith p q = true →
    containsSub q s = true → containsSub p s = true := by
  intro s
  induction s with
  | nil =>
    intro p q hpq h
    unfold containsSub findSub at h ⊢
    by_cases hq : leadsWith q [] = true
    · rw [if_pos (leadsWith_trans p q [] hpq hq)]; rfl
    · rw [if_neg hq] at h; exact absurd h (by simp)
  | cons c t ih =>
    intro p q hpq h
    rw [containsSub_cons] at h ⊢
    rcases Bool.or_eq_true_iff.mp h with h1 | h2
    · exact Bool.or_eq_true_iff.mpr (Or.inl (leadsWith_trans p q _ hpq h1))
    · exact Bool.or_eq_true_iff.mpr (Or.inr (ih p q hpq h2))

theorem pyFindFrom_some {s pat : List Char} {start j : Nat}
    (h : findSub pat (s.drop start) = some j) :
    pyFindFrom s pat start = Int.ofNat (start + j) := by
  unfold pyFindFrom
  rw [h]

theorem pyFindFrom_none {s pat : List Char} {start : Nat}
    (h : findSub pat (s.drop start) = none) :
    pyFindFrom s pat start = -1 := by
  unfold pyFindFrom
  rw [h]

theorem pyFindFrom_zero_some {s pat : List Char} {i : Nat}
    (h : findSub pat s = some i) :
    pyFindFrom s pat 0 = Int.ofNat i := by
  unfold pyFindFrom
  rw [List.drop_zero, h]
  simp

theorem intToNat_ofNat (n : Nat) : (Int.ofNat n).toNat = n := rfl

theorem pySlice_nonneg (s : List Char) (a b : Nat) (hb : b ≤ s.length) :
    pySlice s a (Int.ofNat b) = (s.take b).drop a := by
  unfold pySlice
  have h0 : (0 : Int) ≤ Int.ofNat b := Int.ofNat_nonneg b
  have h1 : ¬ (Int.ofNat b < 0) := not_lt.mpr h0
  simp only [if_neg h1, intToNat_ofNat, min_eq_left hb]

theorem pySlice_neg_one (s : List Char) (a : Nat) :
    pySlice s a (-1) = (s.dropLast).drop a := by
  unfold pySlice
  have h1 : ((-1 : Int) < 0) := by omega
  simp only [if_pos h1, List.dropLast_eq_take]
  rfl

/-! ### Claim C2 — payload-selection order -/

/-- Claim C2: the payload-selection heuristic, exactly in its fixed order.
If a JSON-tagged fence occurs (first occurrence at `i`), and a generic
fence occurs after its end (first at offset `k`), the payload is the text
between the two, stripped of whitespace.  Otherwise, if a generic fence
occurs, the same with its end.  If no fence occurs at all, the payload is
the whole reply, stripped. -/
theorem payload_selection_order (content : List Char) :
    (∀ i k, findSub fenceJson content = some i →
      findSub fence3 (content.drop (i + 7)) = some k →
      extractPayload content = pyStrip ((content.take (i + 7 + k)).drop (i + 7))) ∧
    (findSub fenceJson content = none →
      ∀ i k, findSub fence3 content = some i →
      findSub fence3 (content.drop (i + 3)) = some k →
      extractPayload content = pyStrip ((content.take (i + 3 + k)).drop (i + 3))) ∧
    (containsSub fence3 content = false →
      extractPayload content = pyStrip content) := by
  refine ⟨?_, ?_, ?_⟩
  · intro i k hi hk
    have hc : containsSub fenceJson content = true := containsSub_of_findSub_some hi
    have hb2 : i + 7 + k + 3 ≤ content.length := by
      have h1 := findSub_bound _ _ _ hk
      have h2 : (content.drop (i + 7)).length = content.length - (i + 7) :=
        List.length_drop _ _
      have h3 := findSub_bound _ _ _ hi
      have h4 : fenceJson.length = 7 := rfl
      have h5 : fence3.length = 3 := rfl
      omega
    unfold extractPayload
    rw [if_pos hc]
    simp only [pyFindFrom_zero_some hi, intToNat_ofNat, pyFindFrom_some hk]
    rw [pySlice_nonneg _ _ _ (by omega)]
  · intro hno i k hi hk
    have hcj : containsSub fenceJson content = false := containsSub_false_of_findSub_none hno
    have hc : containsSub fence3 content = true := containsSub_of_findSub_some hi
    have hb2 : i + 3 + k + 3 ≤ content.length := by
      have h1 := findSub_bound _ _ _ hk
      have h2 : (content.drop (i + 3)).length = content.length - (i + 3) :=
        List.length_drop _ _
      have h3 := findSub_bound _ _ _ hi
      have h5 : fence3.length = 3 := rfl
      omega
    unfold extractPayload
    rw [hcj]
    simp only [Bool.false_eq_true, if_false, if_pos hc]
    simp only [pyFindFrom_zero_some hi, intToNat_ofNat, pyFindFrom_some hk]
    rw [pySlice_nonneg _ _ _ (by omega)]
  · intro h3
    have hj : containsSub fenceJson content = false := by
      by_cases h : containsSub fenceJson content = true
      · have := containsSub_mono content fence3 fenceJson rfl h
        rw [this] at h3
        exact absurd h3 (by simp)
      · simpa using h
    unfold extractPayload
    rw [hj, h3]
    simp

/-- Witness for `payload_selection_order` on a reply with both fences
present: `ab```json{x}``` ` selects the text between the JSON fence and the
next fence. -/
theorem payload_selection_order_witness :
    extractPayload "ab```json\x7bx\x7d```".data
      = pyStrip ((("ab```json\x7bx\x7d```".data).take 12).drop 9) :=
  (payload_selection_order "ab```json\x7bx\x7d```".data).1 2 3 rfl rfl

/-! ### Claim C4 — opening fence with no closing fence -/

/-- Claim C4 counterexample: with an opening fence and no closing fence,
the payload is NOT the (stripped) substring running to the end of the text:
for `"```json\nXY"` the slice-to-end payload would be `"\nXY"` (or,
stripped, `"XY"`), but the code extracts `"X"` — the failed `find` returns
`-1`, which Python slicing treats as end-minus-one, silently dropping the
last character. -/
theorem unclosed_fence_counterexample :
    extractPayload "```json\nXY".data = "X".data ∧
    ("```json\nXY".data).drop 7 = "\nXY".data ∧
    pyStrip (("```json\nXY".data).drop 7) = "XY".data ∧
    "X".data ≠ "\nXY".data ∧ "X".data ≠ "XY".data :=
  ⟨rfl, rfl, rfl, by decide, by decide⟩

/-- Claim C4 (amended): when an opening fence is present but no triple
backtick follows it, the failed `find` yields `-1`, which as a Python slice
end designates end-of-string MINUS ONE: the payload is the stripped
substring from the end of the opening fence up to (but not including) the
last character of the text, and no error is raised. -/
theorem unclosed_fence_slices_short (content : List Char) :
    (∀ i, findSub fenceJson content = some i →
      findSub fence3 (content.drop (i + 7)) = none →
      extractPayload content = pyStrip ((content.dropLast).drop (i + 7))) ∧
    (findSub fenceJson content = none →
      ∀ i, findSub fence3 content = some i →
      findSub fence3 (content.drop (i + 3)) = none →
      extractPayload content = pyStrip ((content.dropLast).drop (i + 3))) := by
  constructor
  · intro i hi hk
    have hc : containsSub fenceJson content = true := containsSub_of_findSub_some hi
    unfold extractPayload
    rw [if_pos hc]
    simp only [pyFindFrom_zero_some hi, intToNat_ofNat, pyFindFrom_none hk]
    rw [pySlice_neg_one]
  · intro hno i hi hk
    have hcj : containsSub fenceJson content = false := containsSub_false_of_findSub_none hno
    have hc : containsSub fence3 content = true := containsSub_of_findSub_some hi
    unfold extractPayload
    rw [hcj]
    simp only [Bool.false_eq_true, if_false, if_pos hc]
    simp only [pyFindFrom_zero_some hi, intToNat_ofNat, pyFindFrom_none hk]
    rw [pySlice_neg_one]

/-- Witness for `unclosed_fence_slices_short` at `"```json\nab"`. -/
theorem unclosed_fence_slices_short_witness :
    extractPayload "```json\nab".data
      = pyStrip ((("```json\nab".data).dropLast).drop 7) :=
  (unclosed_fence_slices_short "```json\nab".data).1 0 rfl rfl

/-! ### Strip lemmas -/

theorem dropWhile_head_neg {p : Char → Bool} : ∀ (l : List Char) (c : Char) (t : List Char),
    l.dropWhile p = c :: t → p c = false := by
  intro l
  induction l with
  | nil => intro c t h; simp at h
  | cons a l' ih =>
    intro c t h
    by_cases hp : p a = true
    · rw [List.dropWhile_cons_of_pos hp] at h
      exact ih c t h
    · rw [List.dropWhile_cons_of_neg hp] at h
      obtain ⟨rfl, -⟩ : a = c ∧ l' = t := by
        constructor <;> injection h
      simpa using hp

theorem dropWhile_of_head_neg {p : Char → Bool} {l : List Char} {c : Char} {t : List Char}
    (hl : l = c :: t) (hc : p c = false) : l.dropWhile p = l := by
  subst hl
  rw [List.dropWhile_cons_of_neg (by simp [hc])]

theorem dropWhile_self_idem (p : Char → Bool) : ∀ (l : List Char),
    (l.dropWhile p).dropWhile p = l.dropWhile p := by
  intro l
  induction l with
  | nil => rfl
  | cons a l' ih =>
    by_cases hp : p a = true
    · rw [List.dropWhile_cons_of_pos hp]
      exact ih
    · rw [List.dropWhile_cons_of_neg hp, List.dropWhile_cons_of_neg hp]

theorem getLast?_dropWhile (p : Char → Bool) : ∀ (l : List Char),
    l.dropWhile p ≠ [] → (l.dropWhile p).getLast? = l.getLast? := by
  intro l
  induction l with
  | nil => intro h; simp at h
  | cons a l' ih =>
    intro h
    by_cases hp : p a = true
    · rw [List.dropWhile_cons_of_pos hp] at h ⊢
      rcases hl' : l' with _ | ⟨b, l''⟩
      · rw [hl'] at h; simp at h
      · rw [← hl']
        rw [ih h]
        rw [hl', List.getLast?_cons_cons]
    · rw [List.dropWhile_cons_of_neg hp]

theorem dropWhile_head?_neg {p : Char → Bool} {l : List Char} {c : Char}
    (h : (l.dropWhile p).head? = some c) : p c = false := by
  rcases hd : l.dropWhile p with _ | ⟨a, t⟩
  · rw [hd] at h; simp at h
  · rw [hd] at h
    have ha : a = c := by injection h
    exact ha ▸ dropWhile_head_neg l a t hd

theorem pyStrip_cons_ws {c : Char} (hc : pyWs c = true) (s : List Char) :
    pyStrip (c :: s) = pyStrip s := by
  unfold pyStrip
  rw [List.dropWhile_cons_of_pos hc]

theorem pyStrip_append_ws {c : Char} (hc : pyWs c = true) (s : List Char) :
    pyStrip (s ++ [c]) = pyStrip s := by
  unfold pyStrip
  rcases hd : s.dropWhile pyWs with _ | ⟨a, d'⟩
  · have h1 : (s ++ [c]).dropWhile pyWs = [] := by
      rw [List.dropWhile_append, hd]
      simp [hc]
    rw [h1]
  · have h1 : (s ++ [c]).dropWhile pyWs = (a :: d') ++ [c] := by
      rw [List.dropWhile_append, hd]
      simp
    rw [h1]
    have h2 : ((a :: d') ++ [c]).reverse = c :: (a :: d').reverse := by
      simp
    rw [h2, List.dropWhile_cons_of_pos hc]

/-- A list whose (optional) first and last characters are not whitespace is
unchanged by `pyStrip`. -/
theorem pyStrip_no_ws_ends (l : List Char)
    (h1 : ∀ c, l.head? = some c → pyWs c = false)
    (h2 : ∀ c, l.getLast? = some c → pyWs c = false) :
    pyStrip l = l := by
  unfold pyStrip
  have e1 : l.dropWhile pyWs = l := by
    cases l with
    | nil => rfl
    | cons a t => exact List.dropWhile_cons_of_neg (by simp [h1 a rfl])
  rw [e1]
  have e2 : l.reverse.dropWhile pyWs = l.reverse := by
    cases hr : l.reverse with
    | nil => rfl
    | cons a t =>
      have ha : l.getLast? = some a := by
        rw [← List.head?_reverse, hr]
        rfl
      exact List.dropWhile_cons_of_neg (by simp [h2 a ha])
  rw [e2, List.reverse_reverse]

theorem pyStrip_head?_neg (s : List Char) :
    ∀ c, (pyStrip s).head? = some c → pyWs c = false := by
  intro c h
  unfold pyStrip at h
  rw [List.head?_reverse] at h
  have hne : (s.dropWhile pyWs).reverse.dropWhile pyWs ≠ [] := by
    intro he
    rw [he] at h
    simp at h
  rw [getLast?_dropWhile _ _ hne, List.getLast?_reverse] at h
  exact dropWhile_head?_neg h

theorem pyStrip_getLast?_neg (s : List Char) :
    ∀ c, (pyStrip s).getLast? = some c → pyWs c = false := by
  intro c h
  unfold pyStrip at h
  rw [List.getLast?_reverse] at h
  exact dropWhile_head?_neg h

theorem pyStrip_idem (s : List Char) : pyStrip (pyStrip s) = pyStrip s :=
  pyStrip_no_ws_ends _ (pyStrip_head?_neg s) (pyStrip_getLast?_neg s)

theorem parseJson_pyStrip (s : List Char) : parseJson (pyStrip s) = parseJson s := by
  unfold parseJson
  rw [pyStrip_idem]

/-! ### Fence-occurrence lemmas -/

theorem findSub_leads {pat s : List Char} (h : leadsWith pat s = true) :
    findSub pat s = some 0 := by
  cases s with
  | nil => rw [findSub, if_pos h]
  | cons c t => rw [findSub, if_pos h]

theorem leadsWith_append_self : ∀ (p t : List Char), leadsWith p (p ++ t) = true := by
  intro p
  induction p with
  | nil => intro t; rfl
  | cons a ps ih => intro t; simp [leadsWith, ih]

theorem leadsWith_fence3_of_fenceJson {x : List Char}
    (h : leadsWith fenceJson x = true) : leadsWith fence3 x = true :=
  leadsWith_trans fence3 fenceJson x rfl h

/-- A triple backtick cannot start at a position whose third-or-earlier
character is the `'\n'` separator: if `fence3` leads `s ++ '\n' :: t`, the
three backticks lie inside `s`. -/
theorem leads_fence3_sep {t : List Char} : ∀ (s : List Char),
    leadsWith fence3 (s ++ '\n' :: t) = true → containsSub fence3 s = true := by
  intro s
  rcases s with _ | ⟨a, _ | ⟨b, _ | ⟨c, s'⟩⟩⟩
  · intro h; simp [leadsWith, fence3] at h
  · intro h; simp [leadsWith, fence3] at h
  · intro h; simp [leadsWith, fence3] at h
  · intro h
    simp only [List.cons_append, leadsWith, fence3, Bool.and_eq_true,
      decide_eq_true_eq] at h
    obtain ⟨h1, h2, h3, -⟩ := h
    subst h1; subst h2; subst h3
    rw [containsSub_cons]
    have hl : leadsWith fence3 ('`' :: '`' :: '`' :: s') = true := rfl
    rw [hl]
    rfl

/-- First occurrence of a closing fence after content with no fence:
in `s ++ '\n' :: fence3` the first `fence3` starts right after the
separator, at index `s.length + 1`. -/
theorem findSub_fence3_closing : ∀ (s : List Char),
    containsSub fence3 s = false →
    findSub fence3 (s ++ '\n' :: fence3) = some (s.length + 1) := by
  intro s
  induction s with
  | nil => intro _; rfl
  | cons c s' ih =>
    intro h
    rw [containsSub_cons] at h
    have h1 : leadsWith fence3 (c :: s') = false := by
      rcases hb : leadsWith fence3 (c :: s') with _ | _
      · rfl
      · rw [hb] at h; simp at h
    have h2 : containsSub fence3 s' = false := by
      rcases hb : containsSub fence3 s' with _ | _
      · rfl
      · rw [hb] at h; simp at h
    have hnl : leadsWith fence3 ((c :: s') ++ '\n' :: fence3) = false := by
      rcases hb : leadsWith fence3 ((c :: s') ++ '\n' :: fence3) with _ | _
      · rfl
      · have hcc := leads_fence3_sep (c :: s') hb
        rw [containsSub_cons] at hcc
        rw [hcc] at h
        simp at h
    rw [List.cons_append] at hnl ⊢
    rw [findSub, if_neg (by rw [hnl]; simp)]
    rw [ih h2]
    rfl

/-- No JSON-tagged fence can occur in `s ++ '\n' :: fence3` when `s` has no
generic fence: the closing fence is followed by nothing, and a `json` tag
cannot follow the separator. -/
theorem no_fenceJson_closing : ∀ (s : List Char),
    containsSub fence3 s = false →
    containsSub fenceJson (s ++ '\n' :: fence3) = false := by
  intro s
  induction s with
  | nil => intro _; rfl
  | cons c s' ih =>
    intro h
    rw [containsSub_cons] at h
    have h2 : containsSub fence3 s' = false := by
      rcases hb : containsSub fence3 s' with _ | _
      · rfl
      · rw [hb] at h; simp at h
    rw [List.cons_append, containsSub_cons]
    have hl : leadsWith fenceJson (c :: (s' ++ '\n' :: fence3)) = false := by
      rcases hb : leadsWith fenceJson (c :: (s' ++ '\n' :: fence3)) with _ | _
      · rfl
      · have h3 := leadsWith_fence3_of_fenceJson hb
        rw [← List.cons_append] at h3
        have hcc := leads_fence3_sep (c :: s') h3
        rw [containsSub_cons] at hcc
        rw [hcc] at h
        simp at h
    rw [hl, ih h2]
    rfl

theorem no_fenceJson_of_no_fence3 {s : List Char}
    (h : containsSub fence3 s = false) : containsSub fenceJson s = false := by
  rcases hb : containsSub fenceJson s with _ | _
  · rfl
  · have := containsSub_mono s fence3 fenceJson rfl hb
    rw [this] at h
    simp at h

/-! ### Claim C5 — fence-tag independence of extraction -/

/-- A reply that wraps `J` in a JSON-tagged fence. -/
def jsonWrap (J : List Char) : List Char :=
  fenceJson ++ ('\n' :: (J ++ ('\n' :: fence3)))

/-- A reply that wraps `J` in a generic fence. -/
def genWrap (J : List Char) : List Char :=
  fence3 ++ ('\n' :: (J ++ ('\n' :: fence3)))

theorem extract_jsonWrap (J : List Char) (h : containsSub fence3 J = false) :
    extractPayload (jsonWrap J) = pyStrip J := by
  have hnl : containsSub fence3 ('\n' :: J) = false := by
    rw [containsSub_cons, h]
    rfl
  have hfind0 : findSub fenceJson (jsonWrap J) = some 0 :=
    findSub_leads (leadsWith_append_self fenceJson _)
  have h1 : containsSub fenceJson (jsonWrap J) = true := containsSub_of_findSub_some hfind0
  have hdrop : (jsonWrap J).drop 7 = ('\n' :: J) ++ ('\n' :: fence3) := by
    have h7 : fenceJson.length = 7 := rfl
    rw [jsonWrap, ← h7, List.drop_left]
    rfl
  have hfind3 : findSub fence3 ((jsonWrap J).drop 7) = some (J.length + 2) := by
    rw [hdrop, findSub_fence3_closing ('\n' :: J) hnl]
    rfl
  have hlen : (jsonWrap J).length = J.length + 12 := by
    simp [jsonWrap, fenceJson, fence3]
  have hsplit : jsonWrap J = (fenceJson ++ ('\n' :: (J ++ ['\n']))) ++ fence3 := by
    simp [jsonWrap]
  have hA : (fenceJson ++ ('\n' :: (J ++ ['\n']))).length = 9 + J.length := by
    simp [fenceJson]
    omega
  have hnlw : pyWs '\n' = true := rfl
  have htake : (jsonWrap J).take (9 + J.length) = fenceJson ++ ('\n' :: (J ++ ['\n'])) := by
    rw [hsplit, ← hA, List.take_left]
  have hdrop7 : (fenceJson ++ ('\n' :: (J ++ ['\n']))).drop 7 = '\n' :: (J ++ ['\n']) := by
    rw [show (7 : Nat) = fenceJson.length from rfl, List.drop_left]
  unfold extractPayload
  rw [if_pos h1]
  simp only [pyFindFrom_zero_some hfind0, intToNat_ofNat, Nat.zero_add,
    pyFindFrom_some hfind3]
  have h79 : 7 + (J.length + 2) = 9 + J.length := by omega
  rw [h79, pySlice_nonneg _ _ _ (by omega)]
  rw [htake, hdrop7, pyStrip_cons_ws hnlw, pyStrip_append_ws hnlw]

theorem extract_genWrap (J : List Char) (h : containsSub fence3 J = false) :
    extractPayload (genWrap J) = pyStrip J := by
  have hnl : containsSub fence3 ('\n' :: J) = false := by
    rw [containsSub_cons, h]
    rfl
  have hcons : genWrap J = '`' :: '`' :: '`' :: ('\n' :: (J ++ ('\n' :: fence3))) := rfl
  have hl1 : leadsWith fenceJson ('`' :: '`' :: '`' :: ('\n' :: (J ++ ('\n' :: fence3)))) = false := rfl
  have hl2 : leadsWith fenceJson ('`' :: '`' :: ('\n' :: (J ++ ('\n' :: fence3)))) = false := rfl
  have hl3 : leadsWith fenceJson ('`' :: ('\n' :: (J ++ ('\n' :: fence3)))) = false := rfl
  have hj : containsSub fenceJson (genWrap J) = false := by
    rw [hcons, containsSub_cons, hl1, containsSub_cons, hl2, containsSub_cons, hl3]
    simp only [Bool.false_or]
    rw [← List.cons_append]
    exact no_fenceJson_closing ('\n' :: J) hnl
  have hfind0 : findSub fence3 (genWrap J) = some 0 :=
    findSub_leads (leadsWith_append_self fence3 _)
  have h3gen : containsSub fence3 (genWrap J) = true := containsSub_of_findSub_some hfind0
  have hdrop3 : (genWrap J).drop 3 = ('\n' :: J) ++ ('\n' :: fence3) := by
    have h3 : fence3.length = 3 := rfl
    rw [genWrap, ← h3, List.drop_left]
    rfl
  have hfind3 : findSub fence3 ((genWrap J).drop 3) = some (J.length + 2) := by
    rw [hdrop3, findSub_fence3_closing ('\n' :: J) hnl]
    rfl
  have hlen : (genWrap J).length = J.length + 8 := by
    simp [genWrap, fence3]
  have hsplit : genWrap J = (fence3 ++ ('\n' :: (J ++ ['\n']))) ++ fence3 := by
    simp [genWrap]
  have hA : (fence3 ++ ('\n' :: (J ++ ['\n']))).length = 5 + J.length := by
    simp [fence3]
    omega
  have hnlw : pyWs '\n' = true := rfl
  have htake : (genWrap J).take (5 + J.length) = fence3 ++ ('\n' :: (J ++ ['\n'])) := by
    rw [hsplit, ← hA, List.take_left]
  have hdropA : (fence3 ++ ('\n' :: (J ++ ['\n']))).drop 3 = '\n' :: (J ++ ['\n']) := by
    rw [show (3 : Nat) = fence3.length from rfl, List.drop_left]
  unfold extractPayload
  rw [hj]
  simp only [Bool.false_eq_true, if_false]
  rw [if_pos h3gen]
  simp only [pyFindFrom_zero_some hfind0, intToNat_ofNat, Nat.zero_add,
    pyFindFrom_some hfind3]
  have h35 : 3 + (J.length + 2) = 5 + J.length := by omega
  rw [h35, pySlice_nonneg _ _ _ (by omega)]
  rw [htake, hdropA, pyStrip_cons_ws hnlw, pyStrip_append_ws hnlw]

theorem extract_bare (J : List Char) (h : containsSub fence3 J = false) :
    extractPayload J = pyStrip J := by
  have hj : containsSub fenceJson J = false := no_fenceJson_of_no_fence3 h
  unfold extractPayload
  rw [hj, h]
  simp

/-- Claim C5 (amended): for every valid table-shaped JSON text `J` that
contains no triple-backtick substring, extraction from `J` wrapped in a
JSON-tagged fence, from `J` wrapped in a generic fence, and from `J` as
bare unfenced text all yield the same result, equal to parsing `J`
directly. -/
theorem fenced_and_bare_extraction_agree (J : List Char) (v : Json)
    (hf : containsSub fence3 J = false)
    (hshape : isTableShaped v = true)
    (hv : parseJson J = .ok v) :
    analyzeResponse (jsonWrap J) = v ∧
    analyzeResponse (genWrap J) = v ∧
    analyzeResponse J = v := by
  have hp : parseJson (pyStrip J) = .ok v := by
    rw [parseJson_pyStrip]
    exact hv
  refine ⟨?_, ?_, ?_⟩ <;> unfold analyzeResponse
  · rw [extract_jsonWrap J hf, hp]
  · rw [extract_genWrap J hf, hp]
  · rw [extract_bare J hf, hp]

/-- A well-behaved table-shaped reply text (no backticks). -/
def plainTableText : List Char :=
  ("\x7b\"table_metadata\": \x7b\"row_headers\": [\"R\"], " ++
   "\"column_headers\": [\"C\"]\x7d, \"cells\": []\x7d").data

/-- The parse of `plainTableText`. -/
def plainTableVal : Json :=
  .obj (jmems
    [("table_metadata".data, .obj (jmems
        [("row_headers".data, .arr (jlist [.str "R".data])),
         ("column_headers".data, .arr (jlist [.str "C".data]))])),
     ("cells".data, .arr .nil)])

/-- Witness for `fenced_and_bare_extraction_agree` at `plainTableText`. -/
theorem fenced_and_bare_extraction_agree_witness :
    analyzeResponse (jsonWrap plainTableText) = plainTableVal ∧
    analyzeResponse (genWrap plainTableText) = plainTableVal ∧
    analyzeResponse plainTableText = plainTableVal :=
  fenced_and_bare_extraction_agree plainTableText plainTableVal rfl rfl rfl

/-- A valid table-shaped JSON text whose `cell_value` contains a triple
backtick. -/
def fenceInJsonText : List Char :=
  ("\x7b\"table_metadata\": \x7b\"row_headers\": [\"R\"], " ++
   "\"column_headers\": [\"C\"]\x7d, \"cells\": [\x7b\"row_header\": \"R\", " ++
   "\"column_header\": \"C\", \"cell_value\": \"```\", " ++
   "\"search_question\": \"Q?\"\x7d]\x7d").data

/-- The parse of `fenceInJsonText`. -/
def fenceInJsonVal : Json :=
  .obj (jmems
    [("table_metadata".data, .obj (jmems
        [("row_headers".data, .arr (jlist [.str "R".data])),
         ("column_headers".data, .arr (jlist [.str "C".data]))])),
     ("cells".data, .arr (jlist
        [.obj (jmems
           [("row_header".data, .str "R".data),
            ("column_header".data, .str "C".data),
            ("cell_value".data, .str "```".data),
            ("search_question".data, .str "Q?".data)])]))])

/-- Claim C5 counterexample: `fenceInJsonText` is valid table-shaped JSON
(it parses, and passes the shape check), yet wrapping it in a JSON-tagged
fence makes extraction truncate at the backticks inside `cell_value`: the
result is the parse-failure dictionary, not the value obtained by parsing
the JSON directly — so the claim fails for texts containing triple
backticks. -/
theorem fence_in_json_counterexample :
    parseJson fenceInJsonText = .ok fenceInJsonVal ∧
    isTableShaped fenceInJsonVal = true ∧
    analyzeResponse (jsonWrap fenceInJsonText)
      = .obj (jmems [(errKey, .str parseFailureMessage),
                     (rawKey, .str (jsonWrap fenceInJsonText))]) ∧
    (Json.obj (jmems [(errKey, .str parseFailureMessage),
                      (rawKey, .str (jsonWrap fenceInJsonText))])
       ≠ fenceInJsonVal) :=
  ⟨rfl, rfl, rfl, by decide⟩

/-! ### Claim C10 — the `"error"` key decides success -/

/-- Claim C10: for a dictionary analysis result, `main` treats the presence
of the key `"error"` — even in a successfully parsed model reply — as
failure (diagnostics printed, no output file), and its absence as success
(output written): the `"error"` key alone decides. -/
theorem error_key_sole_failure_test (response : List Char) (kvs : JsonMembers)
    (h : analyzeResponse response = .obj kvs) :
    (memsHasErrKey kvs = true →
      mainRun true response
        = { requested := true, wroteOutput := false, printedFailure := true }) ∧
    (memsHasErrKey kvs = false →
      mainRun true response
        = { requested := true, wroteOutput := true, printedFailure := false }) := by
  constructor <;> intro hk <;> simp [mainRun, h, pyInError, hk]

/-- A parsed reply that legitimately contains an `"error"` field. -/
def errorKeyReply : List Char :=
  "\x7b\"error\": \"rate limited\", \"detail\": \"try later\"\x7d".data

/-- Witness for `error_key_sole_failure_test` at `errorKeyReply`. -/
theorem error_key_sole_failure_test_witness :
    mainRun true errorKeyReply
      = { requested := true, wroteOutput := false, printedFailure := true } :=
  (error_key_sole_failure_test errorKeyReply
    (jmems [(errKey, .str "rate limited".data),
            ("detail".data, .str "try later".data)]) rfl).1 rfl

/-! ### Claim C9 — output serialization format -/

/-- Claim C9: the output file is written with UTF-8 encoding as JSON with
2-space indentation and `ensure_ascii` off, under which every non-ASCII
character is written literally (never `\u`-escaped); a concrete value shows
the 2-space indentation and a literal `é` in the output text. -/
theorem saved_output_format :
    (∀ v : Json, save_to_json v
        = { encoding := "utf-8".data, text := render false 2 v }) ∧
    (∀ c : Char, 127 < c.toNat → escapeChar false c = [c]) ∧
    (save_to_json (.obj (jmems [("k".data, .str "é".data)]))).text
      = "\x7b\n  \"k\": \"é\"\n\x7d".data := by
  refine ⟨fun v => rfl, ?_, rfl⟩
  intro c hc
  unfold escapeChar
  have h1 : ¬ (c = '"') := by intro h; subst h; exact absurd hc (by decide)
  have h2 : ¬ (c = '\\') := by intro h; subst h; exact absurd hc (by decide)
  have h3 : ¬ (c = '\n') := by intro h; subst h; exact absurd hc (by decide)
  have h4 : ¬ (c = '\r') := by intro h; subst h; exact absurd hc (by decide)
  have h5 : ¬ (c = '\t') := by intro h; subst h; exact absurd hc (by decide)
  have h6 : ¬ (c = '\x08') := by intro h; subst h; exact absurd hc (by decide)
  have h7 : ¬ (c = '\x0c') := by intro h; subst h; exact absurd hc (by decide)
  have h8 : ¬ (c.toNat < 32) := by omega
  rw [if_neg h1, if_neg h2, if_neg h3, if_neg h4, if_neg h5, if_neg h6, if_neg h7,
    if_neg h8, if_neg (by simp)]

/-- Witness for `saved_output_format` at the non-ASCII character `é`. -/
theorem saved_output_format_witness :
    escapeChar false 'é' = ['é'] :=
  saved_output_format.2.1 'é' (by decide)

/-! ### Claim C8 — serialize/parse round trip

The machinery below proves that parsing the output of the 2-space-indent,
`ensure_ascii=False` serializer recovers the serialized value, for every
`TableExtractionResult`.  All parse lemmas are stated with a slack fuel
variable `f` (in the style `f + bound`), so they apply at any
sufficiently large fuel. -/

theorem hexDig_isHex (n : Nat) : isHexChar (hexDig n) = true := by
  unfold hexDig
  split <;> rfl

theorem hexVal_hexDig {n : Nat} (h : n < 16) : hexVal (hexDig n) = n := by
  interval_cases n <;> rfl

/-- One decoded character per fuel tick: parsing the escape of `c` followed
by anything decodes `c` and continues. -/
theorem psbF_escapeChar (c : Char) (rest : List Char) (X : Nat) :
    parseStringBodyF (X + 1) (escapeChar false c ++ rest)
      = psCons c (parseStringBodyF X rest) := by
  unfold escapeChar
  by_cases h1 : c = '"'
  · subst h1; rw [if_pos rfl]; rfl
  rw [if_neg h1]
  by_cases h2 : c = '\\'
  · subst h2; rw [if_pos rfl]; rfl
  rw [if_neg h2]
  by_cases h3 : c = '\n'
  · subst h3; rw [if_pos rfl]; rfl
  rw [if_neg h3]
  by_cases h4 : c = '\r'
  · subst h4; rw [if_pos rfl]; rfl
  rw [if_neg h4]
  by_cases h5 : c = '\t'
  · subst h5; rw [if_pos rfl]; rfl
  rw [if_neg h5]
  by_cases h6 : c = '\x08'
  · subst h6; rw [if_pos rfl]; rfl
  rw [if_neg h6]
  by_cases h7 : c = '\x0c'
  · subst h7; rw [if_pos rfl]; rfl
  rw [if_neg h7]
  by_cases h8 : c.toNat < 32
  · rw [if_pos h8]
    show parseStringBodyF (X + 1) ('\\' :: 'u' :: '0' :: '0' ::
        hexDig (c.toNat / 16) :: hexDig (c.toNat % 16) :: rest) = _
    have hh1 : isHexChar (hexDig (c.toNat / 16)) = true := hexDig_isHex _
    have hh2 : isHexChar (hexDig (c.toNat % 16)) = true := hexDig_isHex _
    have hv1 : hexVal (hexDig (c.toNat / 16)) = c.toNat / 16 :=
      hexVal_hexDig (by omega)
    have hv2 : hexVal (hexDig (c.toNat % 16)) = c.toNat % 16 :=
      hexVal_hexDig (Nat.mod_lt _ (by omega))
    show parseStringBodyF (Nat.succ X) _ = _
    simp only [parseStringBodyF, reduceIte, hh1, hh2, Bool.and_self, hv1, hv2]
    have hchar : Char.ofNat (hexVal '0' * 4096 + hexVal '0' * 256 +
        c.toNat / 16 * 16 + c.toNat % 16) = c := by
      have hz : hexVal '0' = 0 := rfl
      rw [hz]
      have harith : 0 * 4096 + 0 * 256 + c.toNat / 16 * 16 + c.toNat % 16
          = c.toNat := by
        have := Nat.div_add_mod c.toNat 16
        omega
      rw [harith, Char.ofNat_toNat]
    rw [hchar]
    rfl
  · rw [if_neg h8]
    rw [if_neg (by simp : ¬ ((false && decide (127 < c.toNat)) = true))]
    show parseStringBodyF (Nat.succ X) (c :: rest) = _
    simp only [parseStringBodyF]
    rw [if_neg h1, if_neg h2, if_neg (by simpa using h8)]

theorem psbF_escapeString : ∀ (s z : List Char) (f : Nat),
    parseStringBodyF (f + s.length + 1) (escapeString false s ++ ('"' :: z))
      = .ok (s, z) := by
  intro s
  induction s with
  | nil =>
    intro z f
    show parseStringBodyF (f + 0 + 1) ('"' :: z) = _
    rfl
  | cons c s' ih =>
    intro z f
    have he : escapeString false (c :: s') = escapeChar false c ++ escapeString false s' := rfl
    have hl : f + (c :: s').length + 1 = (f + s'.length + 1) + 1 := by
      simp only [List.length_cons]
      omega
    rw [he, List.append_assoc, hl, psbF_escapeChar, ih z f]
    rfl

theorem escapeChar_length_pos (c : Char) : 1 ≤ (escapeChar false c).length := by
  simp only [escapeChar, Bool.false_and, Bool.false_eq_true, if_false]
  split_ifs <;> simp

theorem escapeString_length_ge : ∀ (s : List Char),
    s.length ≤ (escapeString false s).length := by
  intro s
  induction s with
  | nil => simp [escapeString]
  | cons c s' ih =>
    have he : escapeString false (c :: s') = escapeChar false c ++ escapeString false s' := rfl
    rw [he]
    have := escapeChar_length_pos c
    simp only [List.length_append, List.length_cons]
    omega

theorem psb_escapeString (s z : List Char) :
    parseStringBody (escapeString false s ++ ('"' :: z)) = .ok (s, z) := by
  unfold parseStringBody
  have hge := escapeString_length_ge s
  obtain ⟨f, hf⟩ : ∃ f, (escapeString false s ++ ('"' :: z)).length + 1
      = f + s.length + 1 := by
    refine ⟨(escapeString false s).length - s.length + z.length + 1, ?_⟩
    simp only [List.length_append, List.length_cons]
    omega
  rw [hf]
  exact psbF_escapeString s z f

theorem skipWs_spaces (n : Nat) (z : List Char) : skipWs (spaces n ++ z) = skipWs z := by
  induction n with
  | zero => rfl
  | succ m ih =>
    show skipWs (List.replicate (m + 1) ' ' ++ z) = skipWs z
    rw [List.replicate_succ, List.cons_append]
    show skipWs (' ' :: (List.replicate m ' ' ++ z)) = skipWs z
    unfold skipWs
    rw [List.dropWhile_cons_of_pos rfl]
    exact ih

theorem skipWs_newline (z : List Char) : skipWs ('\n' :: z) = skipWs z := by
  unfold skipWs
  rw [List.dropWhile_cons_of_pos rfl]

theorem skipWs_space (z : List Char) : skipWs (' ' :: z) = skipWs z := by
  unfold skipWs
  rw [List.dropWhile_cons_of_pos rfl]

theorem skipWs_not_ws {c : Char} (hc : jsonWsChar c = false) (z : List Char) :
    skipWs (c :: z) = c :: z := by
  unfold skipWs
  rw [List.dropWhile_cons_of_neg (by simp [hc])]

theorem skipWs_renderString (s z : List Char) :
    skipWs (renderString false s ++ z) = renderString false s ++ z := by
  show skipWs ('"' :: (escapeString false s ++ ['"'] ++ z)) = _
  rw [skipWs_not_ws (show jsonWsChar '"' = false from rfl)]
  rfl

/-- Parsing a rendered string literal as a JSON value. -/
theorem parse_renderString (f : Nat) (s z : List Char) :
    parseP (f + 1) PMode.val (renderString false s ++ z)
      = .ok (POut.one (Json.str s), z) := by
  show parseP (f + 1) PMode.val ('"' :: (escapeString false s ++ ['"'] ++ z)) = _
  have ha : escapeString false s ++ ['"'] ++ z = escapeString false s ++ ('"' :: z) := by
    simp
  rw [ha]
  show parseP (Nat.succ f) PMode.val ('"' :: (escapeString false s ++ ('"' :: z))) = _
  simp only [parseP, reduceIte, psb_escapeString]
  rfl

/-- The tail items (after the first) of a rendered array of strings. -/
def strRest (lvl : Nat) : List (List Char) → List Char
  | [] => []
  | s :: ss => ',' :: '\n' :: (spaces lvl ++ (renderString false s ++ strRest lvl ss))

theorem renderElems_strs (lvl : Nat) : ∀ (ss : List (List Char)) (s0 : List Char),
    renderElems false 2 lvl (jlist ((s0 :: ss).map Json.str))
      = spaces lvl ++ (renderString false s0 ++ strRest lvl ss) := by
  intro ss
  induction ss with
  | nil =>
    intro s0
    show renderElems false 2 lvl (.cons (.str s0) .nil) = _
    simp [renderElems, renderV, strRest]
  | cons s1 ss' ih =>
    intro s0
    show renderElems false 2 lvl (.cons (.str s0) (.cons (.str s1) (jlist (ss'.map Json.str)))) = _
    rw [renderElems]
    rw [show JsonList.cons (Json.str s1) (jlist (List.map Json.str ss'))
          = jlist (List.map Json.str (s1 :: ss')) from rfl]
    rw [ih s1]
    simp [renderV, strRest, List.append_assoc]

/-- Parsing the element list of a rendered string array (fuel: two ticks
per element plus slack). -/
theorem parse_str_elems : ∀ (ss : List (List Char)) (s0 : List Char) (f lvl : Nat)
    (w z : List Char), skipWs w = ']' :: z →
    parseP (f + (2 * ss.length + 2)) PMode.elems
        (renderString false s0 ++ (strRest lvl ss ++ w))
      = .ok (POut.many (jlist ((s0 :: ss).map Json.str)), z) := by
  intro ss
  induction ss with
  | nil =>
    intro s0 f lvl w z hw
    show parseP (Nat.succ (f + 1)) PMode.elems (renderString false s0 ++ ([] ++ w)) = _
    rw [List.nil_append]
    simp only [parseP.eq_4, parse_renderString, hw]
    rfl
  | cons s1 ss' ih =>
    intro s0 f lvl w z hw
    have hf : f + (2 * (s1 :: ss').length + 2)
        = Nat.succ ((f + 1) + (2 * ss'.length + 2)) := by
      simp only [List.length_cons]
      omega
    rw [hf]
    have hrest : strRest lvl (s1 :: ss') ++ w
        = ',' :: '\n' :: (spaces lvl ++ (renderString false s1 ++ (strRest lvl ss' ++ w))) := by
      show (',' :: '\n' :: (spaces lvl ++ (renderString false s1 ++ strRest lvl ss'))) ++ w = _
      simp [List.append_assoc]
    rw [hrest]
    have hval : parseP ((f + 1) + (2 * ss'.length + 2)) PMode.val
        (renderString false s0 ++
          (',' :: '\n' :: (spaces lvl ++ (renderString false s1 ++ (strRest lvl ss' ++ w)))))
        = .ok (POut.one (Json.str s0),
            ',' :: '\n' :: (spaces lvl ++ (renderString false s1 ++ (strRest lvl ss' ++ w)))) := by
      have hX : (f + 1) + (2 * ss'.length + 2) = (f + 2 * ss'.length + 2) + 1 := by omega
      rw [hX]
      exact parse_renderString _ _ _
    have hs1 : skipWs (',' :: '\n' ::
          (spaces lvl ++ (renderString false s1 ++ (strRest lvl ss' ++ w))))
        = ',' :: '\n' :: (spaces lvl ++ (renderString false s1 ++ (strRest lvl ss' ++ w))) :=
      skipWs_not_ws (show jsonWsChar ',' = false from rfl) _
    have hs2 : skipWs ('\n' :: (spaces lvl ++ (renderString false s1 ++ (strRest lvl ss' ++ w))))
        = renderString false s1 ++ (strRest lvl ss' ++ w) := by
      rw [skipWs_newline, skipWs_spaces, skipWs_renderString]
    simp only [parseP.eq_4, hval, hs1, hs2, reduceIte, ih s1 (f + 1) lvl w z hw]
    rfl

/-- `parse_str_elems` with the input exposed in cons form (as it appears
after the enclosing match has destructured it). -/
theorem parse_str_elems_cons (ss : List (List Char)) (s0 : List Char) (f lvl : Nat)
    (w z : List Char) (hw : skipWs w = ']' :: z) :
    parseP (f + (2 * ss.length + 2)) PMode.elems
        ('"' :: (escapeString false s0 ++ ('"' :: (strRest lvl ss ++ w))))
      = .ok (POut.many (jlist ((s0 :: ss).map Json.str)), z) := by
  have hh : '"' :: (escapeString false s0 ++ ('"' :: (strRest lvl ss ++ w)))
      = renderString false s0 ++ (strRest lvl ss ++ w) := by
    show _ = ('"' :: escapeString false s0 ++ ['"']) ++ (strRest lvl ss ++ w)
    simp
  rw [hh]
  exact parse_str_elems ss s0 f lvl w z hw

/-- Parsing a rendered array of strings as a JSON value. -/
theorem parse_str_arr (ss : List (List Char)) (f lvl : Nat) (z : List Char) :
    parseP (f + (2 * ss.length + 4)) PMode.val
        (renderV false 2 lvl (.arr (jlist (ss.map Json.str))) ++ z)
      = .ok (POut.one (.arr (jlist (ss.map Json.str))), z) := by
  cases ss with
  | nil =>
    show parseP (Nat.succ (f + 3)) PMode.val ('[' :: (']' :: z)) = _
    have hsk : skipWs (']' :: z) = ']' :: z :=
      skipWs_not_ws (show jsonWsChar ']' = false from rfl) _
    simp only [parseP.eq_3, hsk, Char.reduceEq, reduceIte]
    rfl
  | cons s0 ss' =>
    have hf : f + (2 * (s0 :: ss').length + 4)
        = Nat.succ ((f + 3) + (2 * ss'.length + 2)) := by
      simp only [List.length_cons]
      omega
    rw [hf]
    have hrender : renderV false 2 lvl (.arr (jlist ((s0 :: ss').map Json.str))) ++ z
        = '[' :: ('\n' :: (spaces (lvl + 2) ++ (renderString false s0 ++
            (strRest (lvl + 2) ss' ++ ('\n' :: (spaces lvl ++ (']' :: z))))))) := by
      show ('[' :: '\n' :: renderElems false 2 (lvl + 2) (jlist ((s0 :: ss').map Json.str)) ++
          '\n' :: spaces lvl ++ [']']) ++ z = _
      rw [renderElems_strs (lvl + 2) ss' s0]
      simp [List.append_assoc]
    rw [hrender]
    have hw : skipWs ('\n' :: (spaces lvl ++ (']' :: z))) = ']' :: z := by
      rw [skipWs_newline, skipWs_spaces,
        skipWs_not_ws (show jsonWsChar ']' = false from rfl)]
    have hsk : skipWs ('\n' :: (spaces (lvl + 2) ++ (renderString false s0 ++
          (strRest (lvl + 2) ss' ++ ('\n' :: (spaces lvl ++ (']' :: z)))))))
        = '"' :: (escapeString false s0 ++ ('"' :: (strRest (lvl + 2) ss' ++
            ('\n' :: (spaces lvl ++ (']' :: z)))))) := by
      rw [skipWs_newline, skipWs_spaces, skipWs_renderString]
      show ('"' :: escapeString false s0 ++ ['"']) ++ _ = _
      simp
    simp only [parseP.eq_3, hsk, Char.reduceEq, reduceIte,
      parse_str_elems_cons ss' s0 (f + 3) (lvl + 2)
        ('\n' :: (spaces lvl ++ (']' :: z))) z hw]

/-- The tail members (after the first) of a rendered object whose values
are all strings. -/
def strMembRest (lvl : Nat) : List (List Char × List Char) → List Char
  | [] => []
  | (k, s) :: kvs =>
    ',' :: '\n' :: (spaces lvl ++ (renderString false k ++
      (':' :: ' ' :: (renderString false s ++ strMembRest lvl kvs))))

theorem renderMembers_strs (lvl : Nat) : ∀ (kvs : List (List Char × List Char))
    (k0 s0 : List Char),
    renderMembers false 2 lvl (jmems (((k0, s0) :: kvs).map (fun p => (p.1, Json.str p.2))))
      = spaces lvl ++ (renderString false k0 ++
          (':' :: ' ' :: (renderString false s0 ++ strMembRest lvl kvs))) := by
  intro kvs
  induction kvs with
  | nil =>
    intro k0 s0
    show renderMembers false 2 lvl (.cons k0 (.str s0) .nil) = _
    simp [renderMembers, renderV, strMembRest]
  | cons p kvs' ih =>
    intro k0 s0
    obtain ⟨k1, s1⟩ := p
    show renderMembers false 2 lvl
        (.cons k0 (.str s0) (.cons k1 (.str s1)
          (jmems (kvs'.map (fun p => (p.1, Json.str p.2)))))) = _
    rw [renderMembers]
    rw [show JsonMembers.cons k1 (Json.str s1) (jmems (kvs'.map (fun p => (p.1, Json.str p.2))))
          = jmems (((k1, s1) :: kvs').map (fun p => (p.1, Json.str p.2))) from rfl]
    rw [ih k1 s1]
    simp [renderV, strMembRest, List.append_assoc]

/-- Parsing the member list of a rendered all-string object, input exposed
in cons form. -/
theorem parse_str_membs : ∀ (kvs : List (List Char × List Char)) (k0 s0 : List Char)
    (f lvl : Nat) (w z : List Char), skipWs w = '\x7d' :: z →
    parseP (f + (2 * kvs.length + 3)) PMode.membs
        ('"' :: (escapeString false k0 ++ ('"' :: (':' :: ' ' ::
          (renderString false s0 ++ (strMembRest lvl kvs ++ w))))))
      = .ok (POut.assoc (jmems (((k0, s0) :: kvs).map (fun p => (p.1, Json.str p.2)))), z) := by
  intro kvs
  induction kvs with
  | nil =>
    intro k0 s0 f lvl w z hw
    show parseP (Nat.succ (f + 2)) PMode.membs
        ('"' :: (escapeString false k0 ++ ('"' :: (':' :: ' ' ::
          (renderString false s0 ++ ([] ++ w)))))) = _
    rw [List.nil_append]
    have hcolon : skipWs (':' :: (' ' :: (renderString false s0 ++ w)))
        = ':' :: (' ' :: (renderString false s0 ++ w)) :=
      skipWs_not_ws (show jsonWsChar ':' = false from rfl) _
    have hss : skipWs (' ' :: (renderString false s0 ++ w)) = renderString false s0 ++ w := by
      rw [skipWs_space, skipWs_renderString]
    have hval : parseP (f + 2) PMode.val (renderString false s0 ++ w)
        = .ok (POut.one (Json.str s0), w) := by
      rw [show f + 2 = (f + 1) + 1 from rfl]
      exact parse_renderString _ _ _
    simp only [parseP.eq_6, psb_escapeString, hcolon, hss, hval, hw,
      Char.reduceEq, reduceIte]
    rfl
  | cons p kvs' ih =>
    intro k0 s0 f lvl w z hw
    obtain ⟨k1, s1⟩ := p
    have hf : f + (2 * ((k1, s1) :: kvs').length + 3)
        = Nat.succ ((f + 1) + (2 * kvs'.length + 3)) := by
      simp only [List.length_cons]
      omega
    rw [hf]
    have hrest : strMembRest lvl ((k1, s1) :: kvs') ++ w
        = ',' :: '\n' :: (spaces lvl ++ (renderString false k1 ++
            (':' :: ' ' :: (renderString false s1 ++ (strMembRest lvl kvs' ++ w))))) := by
      show (',' :: '\n' :: (spaces lvl ++ (renderString false k1 ++
        (':' :: ' ' :: (renderString false s1 ++ strMembRest lvl kvs'))))) ++ w = _
      simp [List.append_assoc]
    rw [hrest]
    have hcolon : skipWs (':' :: (' ' :: (renderString false s0 ++
          (',' :: '\n' :: (spaces lvl ++ (renderString false k1 ++
            (':' :: ' ' :: (renderString false s1 ++ (strMembRest lvl kvs' ++ w)))))))))
        = ':' :: (' ' :: (renderString false s0 ++
          (',' :: '\n' :: (spaces lvl ++ (renderString false k1 ++
            (':' :: ' ' :: (renderString false s1 ++ (strMembRest lvl kvs' ++ w)))))))) :=
      skipWs_not_ws (show jsonWsChar ':' = false from rfl) _
    have hss : skipWs (' ' :: (renderString false s0 ++
          (',' :: '\n' :: (spaces lvl ++ (renderString false k1 ++
            (':' :: ' ' :: (renderString false s1 ++ (strMembRest lvl kvs' ++ w))))))))
        = renderString false s0 ++
          (',' :: '\n' :: (spaces lvl ++ (renderString false k1 ++
            (':' :: ' ' :: (renderString false s1 ++ (strMembRest lvl kvs' ++ w)))))) := by
      rw [skipWs_space, skipWs_renderString]
    have hval : parseP ((f + 1) + (2 * kvs'.length + 3)) PMode.val
        (renderString false s0 ++
          (',' :: '\n' :: (spaces lvl ++ (renderString false k1 ++
            (':' :: ' ' :: (renderString false s1 ++ (strMembRest lvl kvs' ++ w)))))))
        = .ok (POut.one (Json.str s0),
            ',' :: '\n' :: (spaces lvl ++ (renderString false k1 ++
              (':' :: ' ' :: (renderString false s1 ++ (strMembRest lvl kvs' ++ w)))))) := by
      rw [show (f + 1) + (2 * kvs'.length + 3) = (f + 2 * kvs'.length + 3) + 1 from by omega]
      exact parse_renderString _ _ _
    have hcomma : skipWs (',' :: '\n' :: (spaces lvl ++ (renderString false k1 ++
          (':' :: ' ' :: (renderString false s1 ++ (strMembRest lvl kvs' ++ w))))))
        = ',' :: '\n' :: (spaces lvl ++ (renderString false k1 ++
          (':' :: ' ' :: (renderString false s1 ++ (strMembRest lvl kvs' ++ w))))) :=
      skipWs_not_ws (show jsonWsChar ',' = false from rfl) _
    have hnext : skipWs ('\n' :: (spaces lvl ++ (renderString false k1 ++
          (':' :: ' ' :: (renderString false s1 ++ (strMembRest lvl kvs' ++ w))))))
        = '"' :: (escapeString false k1 ++ ('"' :: (':' :: ' ' ::
            (renderString false s1 ++ (strMembRest lvl kvs' ++ w))))) := by
      rw [skipWs_newline, skipWs_spaces, skipWs_renderString]
      show ('"' :: escapeString false k1 ++ ['"']) ++ _ = _
      simp
    simp only [parseP.eq_6, psb_escapeString, hcolon, hss, hval, hcomma, hnext,
      Char.reduceEq, reduceIte, ih k1 s1 (f + 1) lvl w z hw]
    rfl

/-- The last three key/value pairs of a cell object. -/
def cellTailPairs (cl : Cell) : List (List Char × List Char) :=
  [("column_header".data, cl.column_header),
   ("cell_value".data, cl.cell_value),
   ("search_question".data, cl.search_question)]

theorem cellToJson_pairs (cl : Cell) :
    cellToJson cl = .obj (jmems ((("row_header".data, cl.row_header) :: cellTailPairs cl).map
      (fun p => (p.1, Json.str p.2)))) := rfl

/-- Parsing a rendered cell object as a JSON value. -/
theorem parse_cell_val (cl : Cell) (f lvl : Nat) (z : List Char) :
    parseP (f + 11) PMode.val (renderV false 2 lvl (cellToJson cl) ++ z)
      = .ok (POut.one (cellToJson cl), z) := by
  have hmem : renderMembers false 2 (lvl + 2)
      (jmems ((("row_header".data, cl.row_header) :: cellTailPairs cl).map
        (fun p => (p.1, Json.str p.2))))
      = spaces (lvl + 2) ++ (renderString false "row_header".data ++
          (':' :: ' ' :: (renderString false cl.row_header ++
            strMembRest (lvl + 2) (cellTailPairs cl)))) :=
    renderMembers_strs (lvl + 2) (cellTailPairs cl) _ _
  have hrender : renderV false 2 lvl (cellToJson cl) ++ z
      = '\x7b' :: ('\n' :: (spaces (lvl + 2) ++ (renderString false "row_header".data ++
          (':' :: ' ' :: (renderString false cl.row_header ++
            (strMembRest (lvl + 2) (cellTailPairs cl) ++
              ('\n' :: (spaces lvl ++ ('\x7d' :: z))))))))) := by
    show ('\x7b' :: '\n' :: renderMembers false 2 (lvl + 2)
        (jmems ((("row_header".data, cl.row_header) :: cellTailPairs cl).map
          (fun p => (p.1, Json.str p.2)))) ++ '\n' :: spaces lvl ++ ['\x7d']) ++ z = _
    rw [hmem]
    simp [List.append_assoc]
  rw [hrender]
  have hw : skipWs ('\n' :: (spaces lvl ++ ('\x7d' :: z))) = '\x7d' :: z := by
    rw [skipWs_newline, skipWs_spaces,
      skipWs_not_ws (show jsonWsChar '\x7d' = false from rfl)]
  have hmembs : parseP (f + 10) PMode.membs
      ('"' :: (escapeString false "row_header".data ++ ('"' :: (':' :: ' ' ::
        (renderString false cl.row_header ++
          (strMembRest (lvl + 2) (cellTailPairs cl) ++
            ('\n' :: (spaces lvl ++ ('\x7d' :: z)))))))))
      = .ok (POut.assoc (jmems ((("row_header".data, cl.row_header) :: cellTailPairs cl).map
          (fun p => (p.1, Json.str p.2)))), z) := by
    have h0 := parse_str_membs (cellTailPairs cl) "row_header".data cl.row_header
      (f + 1) (lvl + 2) ('\n' :: (spaces lvl ++ ('\x7d' :: z))) z hw
    rw [show (f + 1) + (2 * (cellTailPairs cl).length + 3) = f + 10 from by
      simp [cellTailPairs]] at h0
    exact h0
  have hsk : skipWs ('\n' :: (spaces (lvl + 2) ++ (renderString false "row_header".data ++
        (':' :: ' ' :: (renderString false cl.row_header ++
          (strMembRest (lvl + 2) (cellTailPairs cl) ++
            ('\n' :: (spaces lvl ++ ('\x7d' :: z)))))))))
      = '"' :: (escapeString false "row_header".data ++ ('"' :: (':' :: ' ' ::
          (renderString false cl.row_header ++
            (strMembRest (lvl + 2) (cellTailPairs cl) ++
              ('\n' :: (spaces lvl ++ ('\x7d' :: z)))))))) := by
    rw [skipWs_newline, skipWs_spaces, skipWs_renderString]
    show ('"' :: escapeString false "row_header".data ++ ['"']) ++ _ = _
    simp
  rw [show f + 11 = Nat.succ (f + 10) from rfl]
  simp only [parseP.eq_3, hsk, Char.reduceEq, reduceIte, hmembs]
  rw [cellToJson_pairs]

/-- The tail items of a rendered array of cell objects. -/
def cellsRest (lvl : Nat) : List Cell → List Char
  | [] => []
  | c :: cs =>
    ',' :: '\n' :: (spaces lvl ++ (renderV false 2 lvl (cellToJson c) ++ cellsRest lvl cs))

theorem renderElems_cells (lvl : Nat) : ∀ (cs : List Cell) (c0 : Cell),
    renderElems false 2 lvl (jlist ((c0 :: cs).map cellToJson))
      = spaces lvl ++ (renderV false 2 lvl (cellToJson c0) ++ cellsRest lvl cs) := by
  intro cs
  induction cs with
  | nil =>
    intro c0
    show renderElems false 2 lvl (.cons (cellToJson c0) .nil) = _
    simp [renderElems, cellsRest]
  | cons c1 cs' ih =>
    intro c0
    show renderElems false 2 lvl (.cons (cellToJson c0)
      (.cons (cellToJson c1) (jlist (cs'.map cellToJson)))) = _
    rw [renderElems]
    rw [show JsonList.cons (cellToJson c1) (jlist (cs'.map cellToJson))
          = jlist ((c1 :: cs').map cellToJson) from rfl]
    rw [ih c1]
    simp [cellsRest, List.append_assoc]

/-- A rendered cell object starts with an opening brace. -/
theorem cellRender_cons (cl : Cell) (lvl : Nat) (y : List Char) :
    renderV false 2 lvl (cellToJson cl) ++ y
      = '\x7b' :: ('\n' :: (renderMembers false 2 (lvl + 2)
          (jmems ((("row_header".data, cl.row_header) :: cellTailPairs cl).map
            (fun p => (p.1, Json.str p.2)))) ++
          ('\n' :: (spaces lvl ++ ('\x7d' :: y))))) := by
  show ('\x7b' :: '\n' :: renderMembers false 2 (lvl + 2)
      (jmems ((("row_header".data, cl.row_header) :: cellTailPairs cl).map
        (fun p => (p.1, Json.str p.2)))) ++ '\n' :: spaces lvl ++ ['\x7d']) ++ y = _
  simp [List.append_assoc]

/-- Parsing the element list of a rendered cells array (fuel: thirteen
ticks per cell plus slack). -/
theorem parse_cells_elems : ∀ (cs : List Cell) (c0 : Cell) (f lvl : Nat)
    (w z : List Char), skipWs w = ']' :: z →
    parseP (f + (13 * cs.length + 13)) PMode.elems
        (renderV false 2 lvl (cellToJson c0) ++ (cellsRest lvl cs ++ w))
      = .ok (POut.many (jlist ((c0 :: cs).map cellToJson)), z) := by
  intro cs
  induction cs with
  | nil =>
    intro c0 f lvl w z hw
    show parseP (Nat.succ (f + 12)) PMode.elems
      (renderV false 2 lvl (cellToJson c0) ++ ([] ++ w)) = _
    rw [List.nil_append]
    have hval : parseP (f + 12) PMode.val (renderV false 2 lvl (cellToJson c0) ++ w)
        = .ok (POut.one (cellToJson c0), w) := by
      rw [show f + 12 = (f + 1) + 11 from by omega]
      exact parse_cell_val c0 (f + 1) lvl w
    simp only [parseP.eq_4, hval, hw, Char.reduceEq, reduceIte]
    rfl
  | cons c1 cs' ih =>
    intro c0 f lvl w z hw
    have hf : f + (13 * (c1 :: cs').length + 13)
        = Nat.succ ((f + 12) + (13 * cs'.length + 13)) := by
      simp only [List.length_cons]
      omega
    rw [hf]
    have hrest : cellsRest lvl (c1 :: cs') ++ w
        = ',' :: '\n' :: (spaces lvl ++ (renderV false 2 lvl (cellToJson c1) ++
            (cellsRest lvl cs' ++ w))) := by
      show (',' :: '\n' :: (spaces lvl ++ (renderV false 2 lvl (cellToJson c1) ++
        cellsRest lvl cs'))) ++ w = _
      simp [List.append_assoc]
    rw [hrest]
    have hval : parseP ((f + 12) + (13 * cs'.length + 13)) PMode.val
        (renderV false 2 lvl (cellToJson c0) ++
          (',' :: '\n' :: (spaces lvl ++ (renderV false 2 lvl (cellToJson c1) ++
            (cellsRest lvl cs' ++ w)))))
        = .ok (POut.one (cellToJson c0),
            ',' :: '\n' :: (spaces lvl ++ (renderV false 2 lvl (cellToJson c1) ++
              (cellsRest lvl cs' ++ w)))) := by
      rw [show (f + 12) + (13 * cs'.length + 13) = (f + 13 * cs'.length + 14) + 11 from by omega]
      exact parse_cell_val c0 _ lvl _
    have hcomma : skipWs (',' :: '\n' :: (spaces lvl ++
          (renderV false 2 lvl (cellToJson c1) ++ (cellsRest lvl cs' ++ w))))
        = ',' :: '\n' :: (spaces lvl ++
          (renderV false 2 lvl (cellToJson c1) ++ (cellsRest lvl cs' ++ w))) :=
      skipWs_not_ws (show jsonWsChar ',' = false from rfl) _
    have hnext : skipWs ('\n' :: (spaces lvl ++
          (renderV false 2 lvl (cellToJson c1) ++ (cellsRest lvl cs' ++ w))))
        = renderV false 2 lvl (cellToJson c1) ++ (cellsRest lvl cs' ++ w) := by
      rw [skipWs_newline, skipWs_spaces, cellRender_cons,
        skipWs_not_ws (show jsonWsChar '\x7b' = false from rfl), ← cellRender_cons]
    simp only [parseP.eq_4, hval, hcomma, hnext, Char.reduceEq, reduceIte,
      ih c1 (f + 12) lvl w z hw]
    rfl

/-- Parsing a rendered array of cell objects as a JSON value. -/
theorem parse_cells_arr (cs : List Cell) (f lvl : Nat) (z : List Char) :
    parseP (f + (13 * cs.length + 15)) PMode.val
        (renderV false 2 lvl (.arr (jlist (cs.map cellToJson))) ++ z)
      = .ok (POut.one (.arr (jlist (cs.map cellToJson))), z) := by
  cases cs with
  | nil =>
    show parseP (Nat.succ (f + 14)) PMode.val ('[' :: (']' :: z)) = _
    have hsk : skipWs (']' :: z) = ']' :: z :=
      skipWs_not_ws (show jsonWsChar ']' = false from rfl) _
    simp only [parseP.eq_3, hsk, Char.reduceEq, reduceIte]
    rfl
  | cons c0 cs' =>
    have hf : f + (13 * (c0 :: cs').length + 15)
        = Nat.succ ((f + 14) + (13 * cs'.length + 13)) := by
      simp only [List.length_cons]
      omega
    rw [hf]
    have hrender : renderV false 2 lvl (.arr (jlist ((c0 :: cs').map cellToJson))) ++ z
        = '[' :: ('\n' :: (spaces (lvl + 2) ++ (renderV false 2 (lvl + 2) (cellToJson c0) ++
            (cellsRest (lvl + 2) cs' ++ ('\n' :: (spaces lvl ++ (']' :: z))))))) := by
      show ('[' :: '\n' :: renderElems false 2 (lvl + 2) (jlist ((c0 :: cs').map cellToJson)) ++
          '\n' :: spaces lvl ++ [']']) ++ z = _
      rw [renderElems_cells (lvl + 2) cs' c0]
      simp [List.append_assoc]
    rw [hrender]
    have hw : skipWs ('\n' :: (spaces lvl ++ (']' :: z))) = ']' :: z := by
      rw [skipWs_newline, skipWs_spaces,
        skipWs_not_ws (show jsonWsChar ']' = false from rfl)]
    have helems : parseP ((f + 14) + (13 * cs'.length + 13)) PMode.elems
        ('\x7b' :: ('\n' :: (renderMembers false 2 (lvl + 2 + 2)
          (jmems ((("row_header".data, c0.row_header) :: cellTailPairs c0).map
            (fun p => (p.1, Json.str p.2)))) ++
          ('\n' :: (spaces (lvl + 2) ++ ('\x7d' ::
            (cellsRest (lvl + 2) cs' ++ ('\n' :: (spaces lvl ++ (']' :: z))))))))))
        = .ok (POut.many (jlist ((c0 :: cs').map cellToJson)), z) := by
      rw [← cellRender_cons]
      exact parse_cells_elems cs' c0 (f + 14) (lvl + 2)
        ('\n' :: (spaces lvl ++ (']' :: z))) z hw
    have hsk : skipWs ('\n' :: (spaces (lvl + 2) ++ (renderV false 2 (lvl + 2) (cellToJson c0) ++
          (cellsRest (lvl + 2) cs' ++ ('\n' :: (spaces lvl ++ (']' :: z)))))))
        = '\x7b' :: ('\n' :: (renderMembers false 2 (lvl + 2 + 2)
            (jmems ((("row_header".data, c0.row_header) :: cellTailPairs c0).map
              (fun p => (p.1, Json.str p.2)))) ++
            ('\n' :: (spaces (lvl + 2) ++ ('\x7d' ::
              (cellsRest (lvl + 2) cs' ++ ('\n' :: (spaces lvl ++ (']' :: z))))))))) := by
      rw [skipWs_newline, skipWs_spaces, cellRender_cons,
        skipWs_not_ws (show jsonWsChar '\x7b' = false from rfl)]
    simp only [parseP.eq_3, hsk, Char.reduceEq, reduceIte, helems]

/-- A rendered array (empty or not) starts with `[`, so whitespace
skipping leaves it unchanged. -/
theorem skipWs_arrRender (es : JsonList) (lvl : Nat) (y : List Char) :
    skipWs (renderV false 2 lvl (.arr es) ++ y)
      = renderV false 2 lvl (.arr es) ++ y := by
  cases es with
  | nil =>
    show skipWs ('[' :: (']' :: y)) = '[' :: (']' :: y)
    exact skipWs_not_ws (show jsonWsChar '[' = false from rfl) _
  | cons e es' =>
    show skipWs ('[' :: (('\n' :: renderElems false 2 (lvl + 2) (.cons e es') ++
        '\n' :: spaces lvl ++ [']']) ++ y)) = _
    exact skipWs_not_ws (show jsonWsChar '[' = false from rfl) _

/-- The metadata object of the output format. -/
def metaObj (rh ch : List (List Char)) : Json :=
  .obj (jmems
    [("row_headers".data, .arr (jlist (rh.map Json.str))),
     ("column_headers".data, .arr (jlist (ch.map Json.str)))])

/-- Parsing the rendered metadata object as a JSON value. -/
theorem parse_meta_val (rh ch : List (List Char)) (f lvl : Nat) (z : List Char) :
    parseP (f + (2 * rh.length + 2 * ch.length + 12)) PMode.val
        (renderV false 2 lvl (metaObj rh ch) ++ z)
      = .ok (POut.one (metaObj rh ch), z) := by
  have hmem : renderMembers false 2 (lvl + 2)
      (.cons "row_headers".data (.arr (jlist (rh.map Json.str)))
        (.cons "column_headers".data (.arr (jlist (ch.map Json.str))) .nil))
      = spaces (lvl + 2) ++ (renderString false "row_headers".data ++
          (':' :: ' ' :: (renderV false 2 (lvl + 2) (.arr (jlist (rh.map Json.str))) ++
            (',' :: '\n' :: (spaces (lvl + 2) ++ (renderString false "column_headers".data ++
              (':' :: ' ' :: renderV false 2 (lvl + 2) (.arr (jlist (ch.map Json.str)))))))))) := by
    show spaces (lvl + 2) ++ renderString false "row_headers".data ++
        ':' :: ' ' :: renderV false 2 (lvl + 2) (.arr (jlist (rh.map Json.str))) ++
        ',' :: '\n' :: (spaces (lvl + 2) ++ renderString false "column_headers".data ++
          ':' :: ' ' :: renderV false 2 (lvl + 2) (.arr (jlist (ch.map Json.str)))) = _
    simp [List.append_assoc]
  have hrender : renderV false 2 lvl (metaObj rh ch) ++ z
      = '\x7b' :: ('\n' :: (spaces (lvl + 2) ++ (renderString false "row_headers".data ++
          (':' :: ' ' :: (renderV false 2 (lvl + 2) (.arr (jlist (rh.map Json.str))) ++
            (',' :: '\n' :: (spaces (lvl + 2) ++ (renderString false "column_headers".data ++
              (':' :: ' ' :: (renderV false 2 (lvl + 2) (.arr (jlist (ch.map Json.str))) ++
                ('\n' :: (spaces lvl ++ ('\x7d' :: z))))))))))))) := by
    show ('\x7b' :: '\n' :: renderMembers false 2 (lvl + 2)
        (.cons "row_headers".data (.arr (jlist (rh.map Json.str)))
          (.cons "column_headers".data (.arr (jlist (ch.map Json.str))) .nil)) ++
        '\n' :: spaces lvl ++ ['\x7d']) ++ z = _
    rw [hmem]
    simp [List.append_assoc]
  rw [hrender]
  have hwclose : skipWs ('\n' :: (spaces lvl ++ ('\x7d' :: z))) = '\x7d' :: z := by
    rw [skipWs_newline, skipWs_spaces,
      skipWs_not_ws (show jsonWsChar '\x7d' = false from rfl)]
  -- second member, at its own fuel
  have hstep2 : parseP (f + 2 * rh.length + 2 * ch.length + 10) PMode.membs
      ('"' :: (escapeString false "column_headers".data ++ ('"' :: (':' :: ' ' ::
        (renderV false 2 (lvl + 2) (.arr (jlist (ch.map Json.str))) ++
          ('\n' :: (spaces lvl ++ ('\x7d' :: z))))))))
      = .ok (POut.assoc (.cons "column_headers".data (.arr (jlist (ch.map Json.str))) .nil), z) := by
    rw [show f + 2 * rh.length + 2 * ch.length + 10
        = Nat.succ (f + 2 * rh.length + 2 * ch.length + 9) from by omega]
    have hcolon : skipWs (':' :: (' ' ::
          (renderV false 2 (lvl + 2) (.arr (jlist (ch.map Json.str))) ++
            ('\n' :: (spaces lvl ++ ('\x7d' :: z))))))
        = ':' :: (' ' ::
          (renderV false 2 (lvl + 2) (.arr (jlist (ch.map Json.str))) ++
            ('\n' :: (spaces lvl ++ ('\x7d' :: z))))) :=
      skipWs_not_ws (show jsonWsChar ':' = false from rfl) _
    have hss : skipWs (' ' ::
          (renderV false 2 (lvl + 2) (.arr (jlist (ch.map Json.str))) ++
            ('\n' :: (spaces lvl ++ ('\x7d' :: z)))))
        = renderV false 2 (lvl + 2) (.arr (jlist (ch.map Json.str))) ++
            ('\n' :: (spaces lvl ++ ('\x7d' :: z))) := by
      rw [skipWs_space, skipWs_arrRender]
    have hval : parseP (f + 2 * rh.length + 2 * ch.length + 9) PMode.val
        (renderV false 2 (lvl + 2) (.arr (jlist (ch.map Json.str))) ++
          ('\n' :: (spaces lvl ++ ('\x7d' :: z))))
        = .ok (POut.one (.arr (jlist (ch.map Json.str))),
            '\n' :: (spaces lvl ++ ('\x7d' :: z))) := by
      rw [show f + 2 * rh.length + 2 * ch.length + 9
          = (f + 2 * rh.length + 5) + (2 * ch.length + 4) from by omega]
      exact parse_str_arr ch _ (lvl + 2) _
    simp only [parseP.eq_6, psb_escapeString, hcolon, hss, hval, hwclose,
      Char.reduceEq, reduceIte]
  -- first member
  have hstep1 : parseP (f + 2 * rh.length + 2 * ch.length + 11) PMode.membs
      ('"' :: (escapeString false "row_headers".data ++ ('"' :: (':' :: ' ' ::
        (renderV false 2 (lvl + 2) (.arr (jlist (rh.map Json.str))) ++
          (',' :: '\n' :: (spaces (lvl + 2) ++ (renderString false "column_headers".data ++
            (':' :: ' ' :: (renderV false 2 (lvl + 2) (.arr (jlist (ch.map Json.str))) ++
              ('\n' :: (spaces lvl ++ ('\x7d' :: z)))))))))))))
      = .ok (POut.assoc (.cons "row_headers".data (.arr (jlist (rh.map Json.str)))
          (.cons "column_headers".data (.arr (jlist (ch.map Json.str))) .nil)), z) := by
    rw [show f + 2 * rh.length + 2 * ch.length + 11
        = Nat.succ (f + 2 * rh.length + 2 * ch.length + 10) from by omega]
    have hcolon : skipWs (':' :: (' ' ::
          (renderV false 2 (lvl + 2) (.arr (jlist (rh.map Json.str))) ++
            (',' :: '\n' :: (spaces (lvl + 2) ++ (renderString false "column_headers".data ++
              (':' :: ' ' :: (renderV false 2 (lvl + 2) (.arr (jlist (ch.map Json.str))) ++
                ('\n' :: (spaces lvl ++ ('\x7d' :: z)))))))))))
        = ':' :: (' ' ::
          (renderV false 2 (lvl + 2) (.arr (jlist (rh.map Json.str))) ++
            (',' :: '\n' :: (spaces (lvl + 2) ++ (renderString false "column_headers".data ++
              (':' :: ' ' :: (renderV false 2 (lvl + 2) (.arr (jlist (ch.map Json.str))) ++
                ('\n' :: (spaces lvl ++ ('\x7d' :: z)))))))))) :=
      skipWs_not_ws (show jsonWsChar ':' = false from rfl) _
    have hss : skipWs (' ' ::
          (renderV false 2 (lvl + 2) (.arr (jlist (rh.map Json.str))) ++
            (',' :: '\n' :: (spaces (lvl + 2) ++ (renderString false "column_headers".data ++
              (':' :: ' ' :: (renderV false 2 (lvl + 2) (.arr (jlist (ch.map Json.str))) ++
                ('\n' :: (spaces lvl ++ ('\x7d' :: z))))))))))
        = renderV false 2 (lvl + 2) (.arr (jlist (rh.map Json.str))) ++
            (',' :: '\n' :: (spaces (lvl + 2) ++ (renderString false "column_headers".data ++
              (':' :: ' ' :: (renderV false 2 (lvl + 2) (.arr (jlist (ch.map Json.str))) ++
                ('\n' :: (spaces lvl ++ ('\x7d' :: z)))))))) := by
      rw [skipWs_space, skipWs_arrRender]
    have hval : parseP (f + 2 * rh.length + 2 * ch.length + 10) PMode.val
        (renderV false 2 (lvl + 2) (.arr (jlist (rh.map Json.str))) ++
          (',' :: '\n' :: (spaces (lvl + 2) ++ (renderString false "column_headers".data ++
            (':' :: ' ' :: (renderV false 2 (lvl + 2) (.arr (jlist (ch.map Json.str))) ++
              ('\n' :: (spaces lvl ++ ('\x7d' :: z)))))))))
        = .ok (POut.one (.arr (jlist (rh.map Json.str))),
            ',' :: '\n' :: (spaces (lvl + 2) ++ (renderString false "column_headers".data ++
              (':' :: ' ' :: (renderV false 2 (lvl + 2) (.arr (jlist (ch.map Json.str))) ++
                ('\n' :: (spaces lvl ++ ('\x7d' :: z)))))))) := by
      rw [show f + 2 * rh.length + 2 * ch.length + 10
          = (f + 2 * ch.length + 6) + (2 * rh.length + 4) from by omega]
      exact parse_str_arr rh _ (lvl + 2) _
    have hcomma : skipWs (',' :: '\n' :: (spaces (lvl + 2) ++
          (renderString false "column_headers".data ++
            (':' :: ' ' :: (renderV false 2 (lvl + 2) (.arr (jlist (ch.map Json.str))) ++
              ('\n' :: (spaces lvl ++ ('\x7d' :: z))))))))
        = ',' :: '\n' :: (spaces (lvl + 2) ++
          (renderString false "column_headers".data ++
            (':' :: ' ' :: (renderV false 2 (lvl + 2) (.arr (jlist (ch.map Json.str))) ++
              ('\n' :: (spaces lvl ++ ('\x7d' :: z))))))) :=
      skipWs_not_ws (show jsonWsChar ',' = false from rfl) _
    have hnext : skipWs ('\n' :: (spaces (lvl + 2) ++
          (renderString false "column_headers".data ++
            (':' :: ' ' :: (renderV false 2 (lvl + 2) (.arr (jlist (ch.map Json.str))) ++
              ('\n' :: (spaces lvl ++ ('\x7d' :: z))))))))
        = '"' :: (escapeString false "column_headers".data ++ ('"' :: (':' :: ' ' ::
            (renderV false 2 (lvl + 2) (.arr (jlist (ch.map Json.str))) ++
              ('\n' :: (spaces lvl ++ ('\x7d' :: z))))))) := by
      rw [skipWs_newline, skipWs_spaces, skipWs_renderString]
      show ('"' :: escapeString false "column_headers".data ++ ['"']) ++ _ = _
      simp
    simp only [parseP.eq_6, psb_escapeString, hcolon, hss, hval, hcomma, hnext,
      Char.reduceEq, reduceIte, hstep2]
  have hsk : skipWs ('\n' :: (spaces (lvl + 2) ++ (renderString false "row_headers".data ++
        (':' :: ' ' :: (renderV false 2 (lvl + 2) (.arr (jlist (rh.map Json.str))) ++
          (',' :: '\n' :: (spaces (lvl + 2) ++ (renderString false "column_headers".data ++
            (':' :: ' ' :: (renderV false 2 (lvl + 2) (.arr (jlist (ch.map Json.str))) ++
              ('\n' :: (spaces lvl ++ ('\x7d' :: z)))))))))))))
      = '"' :: (escapeString false "row_headers".data ++ ('"' :: (':' :: ' ' ::
          (renderV false 2 (lvl + 2) (.arr (jlist (rh.map Json.str))) ++
            (',' :: '\n' :: (spaces (lvl + 2) ++ (renderString false "column_headers".data ++
              (':' :: ' ' :: (renderV false 2 (lvl + 2) (.arr (jlist (ch.map Json.str))) ++
                ('\n' :: (spaces lvl ++ ('\x7d' :: z)))))))))))) := by
    rw [skipWs_newline, skipWs_spaces, skipWs_renderString]
    show ('"' :: escapeString false "row_headers".data ++ ['"']) ++ _ = _
    simp
  rw [show f + (2 * rh.length + 2 * ch.length + 12)
      = Nat.succ (f + 2 * rh.length + 2 * ch.length + 11) from by omega]
  simp only [parseP.eq_3, hsk, Char.reduceEq, reduceIte, hstep1]
  rfl

/-- A rendered metadata object starts with an opening brace, so whitespace
skipping leaves it unchanged. -/
theorem skipWs_metaRender (rh ch : List (List Char)) (lvl : Nat) (y : List Char) :
    skipWs (renderV false 2 lvl (metaObj rh ch) ++ y)
      = renderV false 2 lvl (metaObj rh ch) ++ y := by
  show skipWs ('\x7b' :: (('\n' :: renderMembers false 2 (lvl + 2)
      (.cons "row_headers".data (.arr (jlist (rh.map Json.str)))
        (.cons "column_headers".data (.arr (jlist (ch.map Json.str))) .nil)) ++
      '\n' :: spaces lvl ++ ['\x7d']) ++ y)) = _
  exact skipWs_not_ws (show jsonWsChar '\x7b' = false from rfl) _

/-- The fuel budget that parses the whole rendered output of `r`. -/
def terFuel (r : TableExtractionResult) : Nat :=
  2 * r.row_headers.length + 2 * r.column_headers.length + 13 * r.cells.length + 32

/-- Parsing the whole rendered output object as a JSON value. -/
theorem parse_top_val (r : TableExtractionResult) (f : Nat) (z : List Char) :
    parseP (f + terFuel r) PMode.val (renderV false 2 0 (terToJson r) ++ z)
      = .ok (POut.one (terToJson r), z) := by
  obtain ⟨rh, ch, cs⟩ := r
  show parseP (f + terFuel ⟨rh, ch, cs⟩) PMode.val
      (renderV false 2 0 (.obj (.cons "table_metadata".data (metaObj rh ch)
        (.cons "cells".data (.arr (jlist (cs.map cellToJson))) .nil))) ++ z) = _
  have hrender : renderV false 2 0 (.obj (.cons "table_metadata".data (metaObj rh ch)
        (.cons "cells".data (.arr (jlist (cs.map cellToJson))) .nil))) ++ z
      = '\x7b' :: ('\n' :: (spaces 2 ++ (renderString false "table_metadata".data ++
          (':' :: ' ' :: (renderV false 2 2 (metaObj rh ch) ++
            (',' :: '\n' :: (spaces 2 ++ (renderString false "cells".data ++
              (':' :: ' ' :: (renderV false 2 2 (.arr (jlist (cs.map cellToJson))) ++
                ('\n' :: (spaces 0 ++ ('\x7d' :: z))))))))))))) := by
    show ('\x7b' :: '\n' :: (spaces 2 ++ renderString false "table_metadata".data ++
        ':' :: ' ' :: renderV false 2 2 (metaObj rh ch) ++
        ',' :: '\n' :: (spaces 2 ++ renderString false "cells".data ++
          ':' :: ' ' :: renderV false 2 2 (.arr (jlist (cs.map cellToJson))))) ++
        '\n' :: spaces 0 ++ ['\x7d']) ++ z = _
    simp [List.append_assoc]
  rw [hrender]
  have hwclose : skipWs ('\n' :: (spaces 0 ++ ('\x7d' :: z))) = '\x7d' :: z := by
    rw [skipWs_newline, skipWs_spaces,
      skipWs_not_ws (show jsonWsChar '\x7d' = false from rfl)]
  have hstep2 : parseP (f + 2 * rh.length + 2 * ch.length + 13 * cs.length + 30) PMode.membs
      ('"' :: (escapeString false "cells".data ++ ('"' :: (':' :: ' ' ::
        (renderV false 2 2 (.arr (jlist (cs.map cellToJson))) ++
          ('\n' :: (spaces 0 ++ ('\x7d' :: z))))))))
      = .ok (POut.assoc (.cons "cells".data (.arr (jlist (cs.map cellToJson))) .nil), z) := by
    rw [show f + 2 * rh.length + 2 * ch.length + 13 * cs.length + 30
        = Nat.succ (f + 2 * rh.length + 2 * ch.length + 13 * cs.length + 29) from by omega]
    have hcolon : skipWs (':' :: (' ' ::
          (renderV false 2 2 (.arr (jlist (cs.map cellToJson))) ++
            ('\n' :: (spaces 0 ++ ('\x7d' :: z))))))
        = ':' :: (' ' ::
          (renderV false 2 2 (.arr (jlist (cs.map cellToJson))) ++
            ('\n' :: (spaces 0 ++ ('\x7d' :: z))))) :=
      skipWs_not_ws (show jsonWsChar ':' = false from rfl) _
    have hss : skipWs (' ' ::
          (renderV false 2 2 (.arr (jlist (cs.map cellToJson))) ++
            ('\n' :: (spaces 0 ++ ('\x7d' :: z)))))
        = renderV false 2 2 (.arr (jlist (cs.map cellToJson))) ++
            ('\n' :: (spaces 0 ++ ('\x7d' :: z))) := by
      rw [skipWs_space, skipWs_arrRender]
    have hval : parseP (f + 2 * rh.length + 2 * ch.length + 13 * cs.length + 29) PMode.val
        (renderV false 2 2 (.arr (jlist (cs.map cellToJson))) ++
          ('\n' :: (spaces 0 ++ ('\x7d' :: z))))
        = .ok (POut.one (.arr (jlist (cs.map cellToJson))),
            '\n' :: (spaces 0 ++ ('\x7d' :: z))) := by
      rw [show f + 2 * rh.length + 2 * ch.length + 13 * cs.length + 29
          = (f + 2 * rh.length + 2 * ch.length + 14) + (13 * cs.length + 15) from by omega]
      exact parse_cells_arr cs _ 2 _
    simp only [parseP.eq_6, psb_escapeString, hcolon, hss, hval, hwclose,
      Char.reduceEq, reduceIte]
  have hstep1 : parseP (f + 2 * rh.length + 2 * ch.length + 13 * cs.length + 31) PMode.membs
      ('"' :: (escapeString false "table_metadata".data ++ ('"' :: (':' :: ' ' ::
        (renderV false 2 2 (metaObj rh ch) ++
          (',' :: '\n' :: (spaces 2 ++ (renderString false "cells".data ++
            (':' :: ' ' :: (renderV false 2 2 (.arr (jlist (cs.map cellToJson))) ++
              ('\n' :: (spaces 0 ++ ('\x7d' :: z)))))))))))))
      = .ok (POut.assoc (.cons "table_metadata".data (metaObj rh ch)
          (.cons "cells".data (.arr (jlist (cs.map cellToJson))) .nil)), z) := by
    rw [show f + 2 * rh.length + 2 * ch.length + 13 * cs.length + 31
        = Nat.succ (f + 2 * rh.length + 2 * ch.length + 13 * cs.length + 30) from by omega]
    have hcolon : skipWs (':' :: (' ' ::
          (renderV false 2 2 (metaObj rh ch) ++
            (',' :: '\n' :: (spaces 2 ++ (renderString false "cells".data ++
              (':' :: ' ' :: (renderV false 2 2 (.arr (jlist (cs.map cellToJson))) ++
                ('\n' :: (spaces 0 ++ ('\x7d' :: z)))))))))))
        = ':' :: (' ' ::
          (renderV false 2 2 (metaObj rh ch) ++
            (',' :: '\n' :: (spaces 2 ++ (renderString false "cells".data ++
              (':' :: ' ' :: (renderV false 2 2 (.arr (jlist (cs.map cellToJson))) ++
                ('\n' :: (spaces 0 ++ ('\x7d' :: z)))))))))) :=
      skipWs_not_ws (show jsonWsChar ':' = false from rfl) _
    have hss : skipWs (' ' ::
          (renderV false 2 2 (metaObj rh ch) ++
            (',' :: '\n' :: (spaces 2 ++ (renderString false "cells".data ++
              (':' :: ' ' :: (renderV false 2 2 (.arr (jlist (cs.map cellToJson))) ++
                ('\n' :: (spaces 0 ++ ('\x7d' :: z))))))))))
        = renderV false 2 2 (metaObj rh ch) ++
            (',' :: '\n' :: (spaces 2 ++ (renderString false "cells".data ++
              (':' :: ' ' :: (renderV false 2 2 (.arr (jlist (cs.map cellToJson))) ++
                ('\n' :: (spaces 0 ++ ('\x7d' :: z)))))))) := by
      rw [skipWs_space, skipWs_metaRender]
    have hval : parseP (f + 2 * rh.length + 2 * ch.length + 13 * cs.length + 30) PMode.val
        (renderV false 2 2 (metaObj rh ch) ++
          (',' :: '\n' :: (spaces 2 ++ (renderString false "cells".data ++
            (':' :: ' ' :: (renderV false 2 2 (.arr (jlist (cs.map cellToJson))) ++
              ('\n' :: (spaces 0 ++ ('\x7d' :: z)))))))))
        = .ok (POut.one (metaObj rh ch),
            ',' :: '\n' :: (spaces 2 ++ (renderString false "cells".data ++
              (':' :: ' ' :: (renderV false 2 2 (.arr (jlist (cs.map cellToJson))) ++
                ('\n' :: (spaces 0 ++ ('\x7d' :: z)))))))) := by
      rw [show f + 2 * rh.length + 2 * ch.length + 13 * cs.length + 30
          = (f + 13 * cs.length + 18) + (2 * rh.length + 2 * ch.length + 12) from by omega]
      exact parse_meta_val rh ch _ 2 _
    have hcomma : skipWs (',' :: '\n' :: (spaces 2 ++ (renderString false "cells".data ++
          (':' :: ' ' :: (renderV false 2 2 (.arr (jlist (cs.map cellToJson))) ++
            ('\n' :: (spaces 0 ++ ('\x7d' :: z))))))))
        = ',' :: '\n' :: (spaces 2 ++ (renderString false "cells".data ++
          (':' :: ' ' :: (renderV false 2 2 (.arr (jlist (cs.map cellToJson))) ++
            ('\n' :: (spaces 0 ++ ('\x7d' :: z))))))) :=
      skipWs_not_ws (show jsonWsChar ',' = false from rfl) _
    have hnext : skipWs ('\n' :: (spaces 2 ++ (renderString false "cells".data ++
          (':' :: ' ' :: (renderV false 2 2 (.arr (jlist (cs.map cellToJson))) ++
            ('\n' :: (spaces 0 ++ ('\x7d' :: z))))))))
        = '"' :: (escapeString false "cells".data ++ ('"' :: (':' :: ' ' ::
            (renderV false 2 2 (.arr (jlist (cs.map cellToJson))) ++
              ('\n' :: (spaces 0 ++ ('\x7d' :: z))))))) := by
      rw [skipWs_newline, skipWs_spaces, skipWs_renderString]
      show ('"' :: escapeString false "cells".data ++ ['"']) ++ _ = _
      simp
    simp only [parseP.eq_6, psb_escapeString, hcolon, hss, hval, hcomma, hnext,
      Char.reduceEq, reduceIte, hstep2]
  have hsk : skipWs ('\n' :: (spaces 2 ++ (renderString false "table_metadata".data ++
        (':' :: ' ' :: (renderV false 2 2 (metaObj rh ch) ++
          (',' :: '\n' :: (spaces 2 ++ (renderString false "cells".data ++
            (':' :: ' ' :: (renderV false 2 2 (.arr (jlist (cs.map cellToJson))) ++
              ('\n' :: (spaces 0 ++ ('\x7d' :: z)))))))))))))
      = '"' :: (escapeString false "table_metadata".data ++ ('"' :: (':' :: ' ' ::
          (renderV false 2 2 (metaObj rh ch) ++
            (',' :: '\n' :: (spaces 2 ++ (renderString false "cells".data ++
              (':' :: ' ' :: (renderV false 2 2 (.arr (jlist (cs.map cellToJson))) ++
                ('\n' :: (spaces 0 ++ ('\x7d' :: z)))))))))))) := by
    rw [skipWs_newline, skipWs_spaces, skipWs_renderString]
    show ('"' :: escapeString false "table_metadata".data ++ ['"']) ++ _ = _
    simp
  rw [show f + terFuel ⟨rh, ch, cs⟩
      = Nat.succ (f + 2 * rh.length + 2 * ch.length + 13 * cs.length + 31) from by
        simp only [terFuel]
        omega]
  simp only [parseP.eq_3, hsk, Char.reduceEq, reduceIte, hstep1]
  rfl

/-- A rendered string literal is at least its two quote characters long. -/
theorem renderString_length_ge (s : List Char) : 2 ≤ (renderString false s).length := by
  show 2 ≤ ('"' :: escapeString false s ++ ['"']).length
  simp

/-- Each further string of a rendered string array contributes at least two
characters. -/
theorem strRest_length_ge (lvl : Nat) : ∀ ss : List (List Char),
    2 * ss.length ≤ (strRest lvl ss).length := by
  intro ss
  induction ss with
  | nil => simp [strRest]
  | cons s ss' ih =>
    have h2 := renderString_length_ge s
    simp only [strRest, List.length_cons, List.length_append]
    omega

/-- A rendered string array is at least two characters per element plus its
brackets long. -/
theorem strArr_length_ge (ss : List (List Char)) (lvl : Nat) :
    2 + 2 * ss.length ≤ (renderV false 2 lvl (.arr (jlist (ss.map Json.str)))).length := by
  cases ss with
  | nil => simp [jlist, renderV]
  | cons s0 ss' =>
    show 2 + 2 * (s0 :: ss').length ≤ ('[' :: '\n' ::
        renderElems false 2 (lvl + 2) (jlist ((s0 :: ss').map Json.str)) ++
        '\n' :: spaces lvl ++ [']']).length
    rw [renderElems_strs (lvl + 2) ss' s0]
    have h2 := renderString_length_ge s0
    have hr := strRest_length_ge (lvl + 2) ss'
    simp only [List.length_cons, List.length_append]
    omega

/-- A rendered cell object is at least thirteen characters long. -/
theorem cellRender_length_ge (cl : Cell) (lvl : Nat) :
    13 ≤ (renderV false 2 lvl (cellToJson cl)).length := by
  have hc := cellRender_cons cl lvl []
  rw [List.append_nil] at hc
  rw [hc, renderMembers_strs (lvl + 2) (cellTailPairs cl) "row_header".data cl.row_header]
  have hesc := escapeString_length_ge "row_header".data
  rw [show ("row_header".data).length = 10 from rfl] at hesc
  rw [show ("row_header".data : List Char)
      = ['r', 'o', 'w', '_', 'h', 'e', 'a', 'd', 'e', 'r'] from rfl] at hesc
  simp only [renderString, List.length_cons, List.length_append]
  omega

/-- Each further cell of a rendered cells array contributes at least thirteen
characters. -/
theorem cellsRest_length_ge (lvl : Nat) : ∀ cs : List Cell,
    13 * cs.length ≤ (cellsRest lvl cs).length := by
  intro cs
  induction cs with
  | nil => simp [cellsRest]
  | cons c cs' ih =>
    have hc := cellRender_length_ge c lvl
    simp only [cellsRest, List.length_cons, List.length_append]
    omega

/-- A rendered cells array is at least thirteen characters per cell plus its
brackets long. -/
theorem cellsArr_length_ge (cs : List Cell) (lvl : Nat) :
    2 + 13 * cs.length ≤ (renderV false 2 lvl (.arr (jlist (cs.map cellToJson)))).length := by
  cases cs with
  | nil =>
    show 2 + 13 * ([] : List Cell).length ≤ (['[', ']'] : List Char).length
    simp
  | cons c0 cs' =>
    show 2 + 13 * (c0 :: cs').length ≤ ('[' :: '\n' ::
        renderElems false 2 (lvl + 2) (jlist ((c0 :: cs').map cellToJson)) ++
        '\n' :: spaces lvl ++ [']']).length
    rw [renderElems_cells (lvl + 2) cs' c0]
    have h1 := cellRender_length_ge c0 (lvl + 2)
    have h2 := cellsRest_length_ge (lvl + 2) cs'
    simp only [List.length_cons, List.length_append]
    omega

/-- A rendered metadata object is long enough to cover two fuel ticks per
header string plus the slack its own parse needs. -/
theorem metaRender_length_ge (rh ch : List (List Char)) (lvl : Nat) :
    2 * rh.length + 2 * ch.length + 4 ≤ (renderV false 2 lvl (metaObj rh ch)).length := by
  show 2 * rh.length + 2 * ch.length + 4 ≤ ('\x7b' :: '\n' ::
      renderMembers false 2 (lvl + 2)
        (.cons "row_headers".data (.arr (jlist (rh.map Json.str)))
          (.cons "column_headers".data (.arr (jlist (ch.map Json.str))) .nil)) ++
      '\n' :: spaces lvl ++ ['\x7d']).length
  rw [show renderMembers false 2 (lvl + 2)
        (.cons "row_headers".data (.arr (jlist (rh.map Json.str)))
          (.cons "column_headers".data (.arr (jlist (ch.map Json.str))) .nil))
      = spaces (lvl + 2) ++ renderString false "row_headers".data ++
          ':' :: ' ' :: renderV false 2 (lvl + 2) (.arr (jlist (rh.map Json.str))) ++
          ',' :: '\n' :: (spaces (lvl + 2) ++ renderString false "column_headers".data ++
            ':' :: ' ' :: renderV false 2 (lvl + 2) (.arr (jlist (ch.map Json.str))))
      from rfl]
  have h1 := strArr_length_ge rh (lvl + 2)
  have h2 := strArr_length_ge ch (lvl + 2)
  simp only [List.length_cons, List.length_append]
  omega

/-- The rendered top-level object is long enough that the fuel `parseJson`
allots (twice the text length plus four) covers `terFuel`. -/
theorem topRender_length_ge (r : TableExtractionResult) :
    terFuel r ≤ 2 * (renderV false 2 0 (terToJson r)).length + 4 := by
  obtain ⟨rh, ch, cs⟩ := r
  have hT : terFuel ⟨rh, ch, cs⟩
      = 2 * rh.length + 2 * ch.length + 13 * cs.length + 32 := rfl
  rw [hT]
  show 2 * rh.length + 2 * ch.length + 13 * cs.length + 32 ≤ 2 * ('\x7b' :: '\n' ::
      renderMembers false 2 2 (.cons "table_metadata".data (metaObj rh ch)
        (.cons "cells".data (.arr (jlist (cs.map cellToJson))) .nil)) ++
      '\n' :: spaces 0 ++ ['\x7d']).length + 4
  rw [show renderMembers false 2 2 (.cons "table_metadata".data (metaObj rh ch)
        (.cons "cells".data (.arr (jlist (cs.map cellToJson))) .nil))
      = spaces 2 ++ renderString false "table_metadata".data ++
          ':' :: ' ' :: renderV false 2 2 (metaObj rh ch) ++
          ',' :: '\n' :: (spaces 2 ++ renderString false "cells".data ++
            ':' :: ' ' :: renderV false 2 2 (.arr (jlist (cs.map cellToJson))))
      from rfl]
  have h1 := metaRender_length_ge rh ch 2
  have h2 := cellsArr_length_ge cs 2
  simp only [List.length_cons, List.length_append]
  omega

/-- The rendered top-level object starts and ends with a brace, so Python's
`strip` leaves it unchanged. -/
theorem pyStrip_topRender (r : TableExtractionResult) :
    pyStrip (renderV false 2 0 (terToJson r)) = renderV false 2 0 (terToJson r) := by
  obtain ⟨rh, ch, cs⟩ := r
  have hsh1 : renderV false 2 0 (terToJson ⟨rh, ch, cs⟩)
      = '\x7b' :: '\n' ::
          renderMembers false 2 2 (.cons "table_metadata".data (metaObj rh ch)
            (.cons "cells".data (.arr (jlist (cs.map cellToJson))) .nil)) ++
          '\n' :: spaces 0 ++ ['\x7d'] := rfl
  have hsh2 : renderV false 2 0 (terToJson ⟨rh, ch, cs⟩)
      = ('\x7b' :: '\n' ::
          renderMembers false 2 2 (.cons "table_metadata".data (metaObj rh ch)
            (.cons "cells".data (.arr (jlist (cs.map cellToJson))) .nil)) ++
          '\n' :: spaces 0) ++ ['\x7d'] := by
    rw [hsh1]
  apply pyStrip_no_ws_ends
  · intro c hc
    rw [hsh1] at hc
    have hc2 : some '\x7b' = some c := hc
    rw [(Option.some.inj hc2).symm]
    rfl
  · intro c hc
    rw [hsh2, List.getLast?_concat] at hc
    rw [(Option.some.inj hc).symm]
    rfl

/-- Modelled from the spec: read back a sequence of strings from a parsed
JSON array (the `row_headers` / `column_headers` sequences of the data
model). -/
def jStrList : JsonList → Option (List (List Char))
  | .nil => some []
  | .cons (.str s) rest => (jStrList rest).map (fun l => s :: l)
  | _ => none

/-- Modelled from the spec: read back one cell record from a parsed JSON
object carrying the four required string fields of the data model. -/
def cellOfJson : Json → Option Cell
  | .obj (.cons k1 (.str v1) (.cons k2 (.str v2) (.cons k3 (.str v3)
      (.cons k4 (.str v4) .nil)))) =>
    if k1 = "row_header".data ∧ k2 = "column_header".data ∧
        k3 = "cell_value".data ∧ k4 = "search_question".data then
      some ⟨v1, v2, v3, v4⟩
    else none
  | _ => none

/-- Modelled from the spec: read back the cells sequence of the data model. -/
def cellListOfJson : JsonList → Option (List Cell)
  | .nil => some []
  | .cons v rest =>
    match cellOfJson v, cellListOfJson rest with
    | some c, some cs => some (c :: cs)
    | _, _ => none

/-- Modelled from the spec: decode a parsed JSON value back into a
`TableExtractionResult` record, field for field. -/
def terOfJson : Json → Option TableExtractionResult
  | .obj (.cons kM (.obj (.cons kR (.arr rhs) (.cons kC (.arr chs) .nil)))
      (.cons kS (.arr cls) .nil)) =>
    if kM = "table_metadata".data ∧ kR = "row_headers".data ∧
        kC = "column_headers".data ∧ kS = "cells".data then
      match jStrList rhs, jStrList chs, cellListOfJson cls with
      | some rh, some ch, some cs => some ⟨rh, ch, cs⟩
      | _, _, _ => none
    else none
  | _ => none

/-- Decoding inverts encoding on string sequences. -/
theorem jStrList_map (ss : List (List Char)) :
    jStrList (jlist (ss.map Json.str)) = some ss := by
  induction ss with
  | nil => rfl
  | cons s ss' ih =>
    rw [show jlist ((s :: ss').map Json.str)
        = JsonList.cons (Json.str s) (jlist (ss'.map Json.str)) from rfl]
    simp only [jStrList, ih]
    rfl

/-- Decoding inverts encoding on one cell. -/
theorem cellOfJson_cellToJson (c : Cell) : cellOfJson (cellToJson c) = some c := rfl

/-- Decoding inverts encoding on cell sequences. -/
theorem cellListOfJson_map (cs : List Cell) :
    cellListOfJson (jlist (cs.map cellToJson)) = some cs := by
  induction cs with
  | nil => rfl
  | cons c cs' ih =>
    rw [show jlist ((c :: cs').map cellToJson)
        = JsonList.cons (cellToJson c) (jlist (cs'.map cellToJson)) from rfl]
    simp only [cellListOfJson]
    rw [cellOfJson_cellToJson, ih]

/-- Decoding inverts encoding on whole records. -/
theorem terOfJson_terToJson (r : TableExtractionResult) :
    terOfJson (terToJson r) = some r := by
  obtain ⟨rh, ch, cs⟩ := r
  rw [show terToJson ⟨rh, ch, cs⟩
      = Json.obj (.cons "table_metadata".data
          (.obj (.cons "row_headers".data (.arr (jlist (rh.map Json.str)))
            (.cons "column_headers".data (.arr (jlist (ch.map Json.str))) .nil)))
          (.cons "cells".data (.arr (jlist (cs.map cellToJson))) .nil)) from rfl]
  simp only [terOfJson]
  rw [jStrList_map, jStrList_map, cellListOfJson_map]
  simp

/-- Claim C8: serializing a `TableExtractionResult` with `save_to_json`
(`json.dump(..., indent=2, ensure_ascii=False)`) and parsing the serialized
text back recovers exactly the original record: the parse succeeds with the
same JSON value, and decoding that value yields every field of the original
record unchanged. -/
theorem serialize_parse_roundtrip (r : TableExtractionResult) :
    parseJson ((save_to_json (terToJson r)).text) = Except.ok (terToJson r) ∧
    terOfJson (terToJson r) = some r := by
  constructor
  · have hlen := topRender_length_ge r
    have hparse : parseP (2 * (renderV false 2 0 (terToJson r)).length + 4) PMode.val
        (renderV false 2 0 (terToJson r)) = .ok (POut.one (terToJson r), []) := by
      have h2 := parse_top_val r
        ((2 * (renderV false 2 0 (terToJson r)).length + 4) - terFuel r) []
      rw [List.append_nil] at h2
      rw [show 2 * (renderV false 2 0 (terToJson r)).length + 4
          = ((2 * (renderV false 2 0 (terToJson r)).length + 4) - terFuel r) + terFuel r
          from by omega]
      exact h2
    show parseJson (render false 2 (terToJson r)) = _
    rw [show render false 2 (terToJson r) = renderV false 2 0 (terToJson r) from rfl]
    simp only [parseJson]
    rw [pyStrip_topRender r, hparse]
    rfl
  · exact terOfJson_terToJson r

end TableExtract
